import Mathlib

/-!
# Verification of the TradingBot streak-pullback core

Shallow embedding of the repository's core trading engine:

* `bot/strategy_engine.py` — the locked Forex 5-minute strategy state machine
  (`generate_trades_and_setups`, `generate_trades` and its pure helpers
  `_candle_dir`, `_pullback_invalid`, `_compute_target`, `_breaking_condition`,
  `_find_first_target_touch`);
* `backend/gap_handling.py` — the gap segmenter (`split_candles_on_gaps`) and
  the gap-aware wrappers (`generate_trades_with_gap_resets`,
  `generate_trades_and_setups_with_gap_resets`).

Modelling conventions: timestamps are `Int` (epoch seconds), prices are exact
rationals `ℚ` (the Python code uses float64; every property verified here is
order-theoretic, so the exact-arithmetic model mirrors the source's comparisons
and min/max computations one for one).  Python lists indexed by a scanning
cursor become Lean `List` with `getD` lookups guarded by the loop bound, as in
the source's `while i < n` loop.
-/

/-- One OHLCV bar, as consumed by the engine (`time`, `open`, `high`, `low`,
`close`; `volume` is carried but unused by engine logic). -/
structure Candle where
  time : Int
  open_ : ℚ
  high : ℚ
  low : ℚ
  close : ℚ
  volume : ℚ
deriving Repr, DecidableEq, Inhabited

/-- The `"BUY"` / `"SELL"` direction labels of the Python engine. -/
inductive TradeDirection where
  | BUY : TradeDirection
  | SELL : TradeDirection
deriving Repr, DecidableEq

/-- An `{time, price}` pair as used in a trade's `entry` and `exit` fields. -/
structure TimedPrice where
  time : Int
  price : ℚ
deriving Repr, DecidableEq

/-- The normalized trade dict produced by `generate_trades_and_setups`. -/
structure Trade where
  direction : TradeDirection
  streak_length : Nat
  pullback_length : Nat
  target : ℚ
  breaking_candle_time : Int
  entry : TimedPrice
  exit : TimedPrice
deriving Repr, DecidableEq

/-- The setup dict appended on each completed (valid) pullback. -/
structure Setup where
  time : Int
  direction : TradeDirection
  streak_length : Nat
  pullback_length : Nat
  target : ℚ
deriving Repr, DecidableEq

/-- `_PendingSetup` from `bot/strategy_engine.py`. -/
structure PendingSetup where
  streak_dir : Int
  streak_length : Nat
  pullback_start_idx : Nat
  pullback_length : Nat
  target : ℚ
  breaking_candle_time : Int
deriving Repr, DecidableEq

/-- `_candle_dir`: 1 for bullish (close>open), -1 for bearish, 0 for doji. -/
def candle_dir (c : Candle) : Int :=
  if c.close > c.open_ then 1
  else if c.close < c.open_ then -1
  else 0

/-- `min(float(x["low"]) for x in pullback)` over a nonempty pullback
(the `[]` case is unreachable in the engine; Python would raise). -/
def pb_min_low : List Candle → ℚ
  | [] => 0
  | [c] => c.low
  | c :: c2 :: rest => min c.low (pb_min_low (c2 :: rest))

/-- `max(float(x["high"]) for x in pullback)` over a nonempty pullback. -/
def pb_max_high : List Candle → ℚ
  | [] => 0
  | [c] => c.high
  | c :: c2 :: rest => max c.high (pb_max_high (c2 :: rest))

/-- `_pullback_invalid` from `bot/strategy_engine.py`. -/
def pullback_invalid (streak_dir : Int) (lsc_open : ℚ) (pullback : List Candle) : Bool :=
  if streak_dir = 1 then
    decide (pb_min_low pullback < lsc_open)
  else
    decide (pb_max_high pullback > lsc_open)

/-- `_compute_target` from `bot/strategy_engine.py`. -/
def compute_target (streak_dir : Int) (lsc_high lsc_low : ℚ) (pullback : List Candle) : ℚ :=
  let mid := (lsc_high + lsc_low) / 2
  let touched := pullback.any fun pb => decide (pb.low ≤ mid) && decide (mid ≤ pb.high)
  if touched then
    if streak_dir = 1 then lsc_low else lsc_high
  else
    if streak_dir = 1 then pb_min_low pullback else pb_max_high pullback

/-- `_breaking_condition` from `bot/strategy_engine.py`. -/
def breaking_condition (streak_dir : Int) (close_price target : ℚ) : Bool :=
  if streak_dir = 1 then
    decide (close_price < target)
  else
    decide (close_price > target)

/-- `_find_first_target_touch` from `bot/strategy_engine.py`: first index
`k ≥ start_idx` whose candle range contains the target, else `none`. -/
def find_first_target_touch (candles : List Candle) (start_idx : Nat) (target : ℚ) : Option Nat :=
  if h : start_idx < candles.length then
    let low := (candles.getD start_idx default).low
    let high := (candles.getD start_idx default).high
    if low ≤ target ∧ target ≤ high then
      some start_idx
    else
      find_first_target_touch candles (start_idx + 1) target
  else
    none
termination_by candles.length - start_idx
decreasing_by
  simp_wf
  omega

/-- A successful forward touch scan never returns an index before `start_idx`. -/
theorem find_some_ge (candles : List Candle) (start_idx : Nat) (target : ℚ) (k : Nat)
    (hfind : find_first_target_touch candles start_idx target = some k) : start_idx ≤ k := by
  have H : ∀ fuel s, candles.length - s ≤ fuel →
      find_first_target_touch candles s target = some k → s ≤ k := by
    intro fuel
    induction fuel with
    | zero =>
      intro s hle hf
      unfold find_first_target_touch at hf
      have hns : ¬ s < candles.length := by omega
      simp [hns] at hf
    | succ f ih =>
      intro s hle hf
      unfold find_first_target_touch at hf
      split at hf
      · dsimp only at hf
        split at hf
        · exact le_of_eq (Option.some.inj hf)
        · have hs : s < candles.length := by assumption
          have := ih (s + 1) (by omega) hf
          omega
      · exact absurd hf (by simp)
  exact H (candles.length - start_idx) start_idx (le_refl _) hfind

/-- The internal state of the engine's scan loop.  The Python code keeps a
`_State` enum together with the mutable variables that are live in that state
(`streak_dir`, `streak_start_idx`, `streak_length`, `lsc_idx`,
`setup_streak_length`, `pullback_start_idx`, `pullback_length`, `pending`);
here each constructor carries exactly the variables live in that state. -/
inductive EngState where
  | seekStreak : EngState
  | inStreak (streak_dir : Int) (streak_start_idx : Nat) (streak_length : Nat) : EngState
  | inPullback (streak_dir : Int) (lsc_idx : Nat) (setup_streak_length : Nat)
      (pullback_start_idx : Nat) (pullback_length : Nat) : EngState
  | awaitConfirmation (pending : PendingSetup) : EngState
deriving Repr, DecidableEq

/-- The `while i < n` scan loop of `generate_trades_and_setups`, in explicit
state-passing form.  Each branch mirrors one transition of the Python state
machine; on a resolved trade the cursor jumps to `exit_idx + 1`, and an
unresolved confirmed entry returns the accumulators unchanged (the early
`return trades, setups`). -/
def engine_loop (candles : List Candle) (i : Nat) (st : EngState)
    (trades : List Trade) (setups : List Setup) : List Trade × List Setup :=
  if hi : i < candles.length then
    let candle := candles.getD i default
    let c_dir := candle_dir candle
    match st with
    | .seekStreak =>
      if c_dir = 0 then
        engine_loop candles (i + 1) .seekStreak trades setups
      else
        engine_loop candles (i + 1) (.inStreak c_dir i 1) trades setups
    | .inStreak streak_dir streak_start_idx streak_length =>
      if c_dir = streak_dir then
        engine_loop candles (i + 1) (.inStreak streak_dir streak_start_idx (streak_length + 1))
          trades setups
      else if c_dir = 0 then
        engine_loop candles (i + 1) .seekStreak trades setups
      else if 4 ≤ streak_length then
        engine_loop candles (i + 1) (.inPullback streak_dir (i - 1) streak_length i 1)
          trades setups
      else
        engine_loop candles (i + 1) (.inStreak c_dir i 1) trades setups
    | .inPullback streak_dir lsc_idx setup_streak_length pullback_start_idx pullback_length =>
      if c_dir = 0 then
        engine_loop candles (i + 1) .seekStreak trades setups
      else if c_dir = -streak_dir then
        if pullback_length = 1 then
          engine_loop candles (i + 1)
            (.inPullback streak_dir lsc_idx setup_streak_length pullback_start_idx 2)
            trades setups
        else
          engine_loop candles (i + 1)
            (.inStreak c_dir pullback_start_idx (pullback_length + 1)) trades setups
      else if c_dir ≠ streak_dir then
        engine_loop candles (i + 1) .seekStreak trades setups
      else
        let pullback := (candles.drop pullback_start_idx).take pullback_length
        let lsc := candles.getD lsc_idx default
        if pullback_invalid streak_dir lsc.open_ pullback then
          engine_loop candles (i + 1) (.inStreak c_dir i 1) trades setups
        else
          let target := compute_target streak_dir lsc.high lsc.low pullback
          let setups' := setups ++ [{ time := candle.time,
                                      direction := if streak_dir = 1 then .BUY else .SELL,
                                      streak_length := setup_streak_length,
                                      pullback_length := pullback_length,
                                      target := target }]
          if ! breaking_condition streak_dir candle.close target then
            engine_loop candles (i + 1) (.inStreak c_dir i 1) trades setups'
          else
            engine_loop candles (i + 1)
              (.awaitConfirmation { streak_dir := streak_dir,
                                    streak_length := setup_streak_length,
                                    pullback_start_idx := pullback_start_idx,
                                    pullback_length := pullback_length,
                                    target := target,
                                    breaking_candle_time := candle.time })
              trades setups'
    | .awaitConfirmation pending =>
      if c_dir ≠ pending.streak_dir then
        if c_dir = 0 then
          engine_loop candles (i + 1) .seekStreak trades setups
        else
          engine_loop candles (i + 1) (.inStreak c_dir i 1) trades setups
      else
        match hfind : find_first_target_touch candles (i + 1) pending.target with
        | none => (trades, setups)
        | some exit_idx =>
          let exit_candle := candles.getD exit_idx default
          engine_loop candles (exit_idx + 1) .seekStreak
            (trades ++ [{ direction := if pending.streak_dir = 1 then .BUY else .SELL,
                          streak_length := pending.streak_length,
                          pullback_length := pending.pullback_length,
                          target := pending.target,
                          breaking_candle_time := pending.breaking_candle_time,
                          entry := { time := candle.time, price := candle.close },
                          exit := { time := exit_candle.time, price := pending.target } }])
            setups
  else
    (trades, setups)
termination_by candles.length - i
decreasing_by
  all_goals simp_wf
  all_goals first
    | omega
    | (have hge := find_some_ge candles (i + 1) pending.target exit_idx hfind; omega)

/-- `generate_trades_and_setups` from `bot/strategy_engine.py`. -/
def generate_trades_and_setups (candles : List Candle) : List Trade × List Setup :=
  if candles = [] then ([], [])
  else engine_loop candles 0 .seekStreak [] []

/-- `generate_trades` from `bot/strategy_engine.py`. -/
def generate_trades (candles : List Candle) : List Trade :=
  (generate_trades_and_setups candles).1

/-! ## Step equations for the scan loop

One rewrite lemma per branch of the Python state machine; all later proofs
unfold the loop through these. -/

theorem engine_loop_exhausted (candles : List Candle) (i : Nat) (st : EngState)
    (trades : List Trade) (setups : List Setup) (h : ¬ i < candles.length) :
    engine_loop candles i st trades setups = (trades, setups) := by
  rw [engine_loop]
  simp [h]

theorem engine_loop_seek_doji (candles : List Candle) (i : Nat)
    (trades : List Trade) (setups : List Setup) (h : i < candles.length)
    (hdir : candle_dir candles[i] = 0) :
    engine_loop candles i .seekStreak trades setups
      = engine_loop candles (i + 1) .seekStreak trades setups := by
  conv_lhs => rw [engine_loop]
  simp [h, hdir]

theorem engine_loop_seek_start (candles : List Candle) (i : Nat) (d : Int)
    (trades : List Trade) (setups : List Setup) (h : i < candles.length)
    (hdir : candle_dir candles[i] = d) (hd : d ≠ 0) :
    engine_loop candles i .seekStreak trades setups
      = engine_loop candles (i + 1) (.inStreak d i 1) trades setups := by
  conv_lhs => rw [engine_loop]
  simp [h, hdir, hd]

theorem engine_loop_instreak_extend (candles : List Candle) (i : Nat)
    (sd : Int) (ssi sl : Nat)
    (trades : List Trade) (setups : List Setup) (h : i < candles.length)
    (hdir : candle_dir candles[i] = sd) :
    engine_loop candles i (.inStreak sd ssi sl) trades setups
      = engine_loop candles (i + 1) (.inStreak sd ssi (sl + 1)) trades setups := by
  conv_lhs => rw [engine_loop]
  simp [h, hdir]

theorem engine_loop_instreak_doji (candles : List Candle) (i : Nat)
    (sd : Int) (ssi sl : Nat)
    (trades : List Trade) (setups : List Setup) (h : i < candles.length)
    (hdir : candle_dir candles[i] = 0) (hsd : sd ≠ 0) :
    engine_loop candles i (.inStreak sd ssi sl) trades setups
      = engine_loop candles (i + 1) .seekStreak trades setups := by
  conv_lhs => rw [engine_loop]
  have h0 : (0 : Int) ≠ sd := Ne.symm hsd
  simp [h, hdir, h0]

theorem engine_loop_instreak_to_pullback (candles : List Candle) (i : Nat)
    (sd d : Int) (ssi sl : Nat)
    (trades : List Trade) (setups : List Setup) (h : i < candles.length)
    (hdir : candle_dir candles[i] = d) (hne : d ≠ sd) (hd0 : d ≠ 0) (hlen : 4 ≤ sl) :
    engine_loop candles i (.inStreak sd ssi sl) trades setups
      = engine_loop candles (i + 1) (.inPullback sd (i - 1) sl i 1) trades setups := by
  conv_lhs => rw [engine_loop]
  simp [h, hdir, hne, hd0, hlen]

theorem engine_loop_instreak_short (candles : List Candle) (i : Nat)
    (sd d : Int) (ssi sl : Nat)
    (trades : List Trade) (setups : List Setup) (h : i < candles.length)
    (hdir : candle_dir candles[i] = d) (hne : d ≠ sd) (hd0 : d ≠ 0) (hlen : sl < 4) :
    engine_loop candles i (.inStreak sd ssi sl) trades setups
      = engine_loop candles (i + 1) (.inStreak d i 1) trades setups := by
  conv_lhs => rw [engine_loop]
  have h4 : ¬ 4 ≤ sl := by omega
  simp [h, hdir, hne, hd0, h4]

theorem engine_loop_pullback_doji (candles : List Candle) (i : Nat)
    (sd : Int) (lsc ssl pbs pbl : Nat)
    (trades : List Trade) (setups : List Setup) (h : i < candles.length)
    (hdir : candle_dir candles[i] = 0) :
    engine_loop candles i (.inPullback sd lsc ssl pbs pbl) trades setups
      = engine_loop candles (i + 1) .seekStreak trades setups := by
  conv_lhs => rw [engine_loop]
  simp [h, hdir]

theorem engine_loop_pullback_extend (candles : List Candle) (i : Nat)
    (sd : Int) (lsc ssl pbs : Nat)
    (trades : List Trade) (setups : List Setup) (h : i < candles.length)
    (hdir : candle_dir candles[i] = -sd) (hsd : sd ≠ 0) :
    engine_loop candles i (.inPullback sd lsc ssl pbs 1) trades setups
      = engine_loop candles (i + 1) (.inPullback sd lsc ssl pbs 2) trades setups := by
  conv_lhs => rw [engine_loop]
  simp [h, hdir, hsd]

theorem engine_loop_pullback_third (candles : List Candle) (i : Nat)
    (sd : Int) (lsc ssl pbs pbl : Nat)
    (trades : List Trade) (setups : List Setup) (h : i < candles.length)
    (hdir : candle_dir candles[i] = -sd) (hsd : sd ≠ 0) (hpbl : pbl ≠ 1) :
    engine_loop candles i (.inPullback sd lsc ssl pbs pbl) trades setups
      = engine_loop candles (i + 1) (.inStreak (-sd) pbs (pbl + 1)) trades setups := by
  conv_lhs => rw [engine_loop]
  simp [h, hdir, hsd, hpbl]

theorem engine_loop_pullback_defensive (candles : List Candle) (i : Nat)
    (sd d : Int) (lsc ssl pbs pbl : Nat)
    (trades : List Trade) (setups : List Setup) (h : i < candles.length)
    (hdir : candle_dir candles[i] = d) (hd0 : d ≠ 0) (hdm : d ≠ -sd) (hds : d ≠ sd) :
    engine_loop candles i (.inPullback sd lsc ssl pbs pbl) trades setups
      = engine_loop candles (i + 1) .seekStreak trades setups := by
  conv_lhs => rw [engine_loop]
  simp [h, hdir, hd0, hdm, hds]

theorem engine_loop_pullback_break_invalid (candles : List Candle) (i : Nat)
    (sd : Int) (lsc ssl pbs pbl : Nat)
    (trades : List Trade) (setups : List Setup) (h : i < candles.length)
    (hdir : candle_dir candles[i] = sd) (hsd : sd ≠ 0)
    (hinv : pullback_invalid sd (candles.getD lsc default).open_
        ((candles.drop pbs).take pbl) = true) :
    engine_loop candles i (.inPullback sd lsc ssl pbs pbl) trades setups
      = engine_loop candles (i + 1) (.inStreak sd i 1) trades setups := by
  conv_lhs => rw [engine_loop]
  have hm : ¬ (sd = -sd) := by omega
  simp only [List.getD_eq_getElem?_getD] at hinv
  simp [h, hdir, hsd, hm, hinv]

theorem engine_loop_pullback_break_fail (candles : List Candle) (i : Nat)
    (sd : Int) (lsc ssl pbs pbl : Nat)
    (trades : List Trade) (setups : List Setup) (h : i < candles.length)
    (hdir : candle_dir candles[i] = sd) (hsd : sd ≠ 0)
    (hinv : pullback_invalid sd (candles.getD lsc default).open_
        ((candles.drop pbs).take pbl) = false)
    (hbr : breaking_condition sd candles[i].close
        (compute_target sd (candles.getD lsc default).high (candles.getD lsc default).low
          ((candles.drop pbs).take pbl)) = false) :
    engine_loop candles i (.inPullback sd lsc ssl pbs pbl) trades setups
      = engine_loop candles (i + 1) (.inStreak sd i 1) trades
          (setups ++ [{ time := candles[i].time,
                        direction := if sd = 1 then .BUY else .SELL,
                        streak_length := ssl,
                        pullback_length := pbl,
                        target := compute_target sd (candles.getD lsc default).high
                          (candles.getD lsc default).low
                          ((candles.drop pbs).take pbl) }]) := by
  conv_lhs => rw [engine_loop]
  have hm : ¬ (sd = -sd) := by omega
  simp only [List.getD_eq_getElem?_getD] at hinv hbr
  simp [h, hdir, hsd, hm, hinv, hbr]

theorem engine_loop_pullback_break_ok (candles : List Candle) (i : Nat)
    (sd : Int) (lsc ssl pbs pbl : Nat)
    (trades : List Trade) (setups : List Setup) (h : i < candles.length)
    (hdir : candle_dir candles[i] = sd) (hsd : sd ≠ 0)
    (hinv : pullback_invalid sd (candles.getD lsc default).open_
        ((candles.drop pbs).take pbl) = false)
    (hbr : breaking_condition sd candles[i].close
        (compute_target sd (candles.getD lsc default).high (candles.getD lsc default).low
          ((candles.drop pbs).take pbl)) = true) :
    engine_loop candles i (.inPullback sd lsc ssl pbs pbl) trades setups
      = engine_loop candles (i + 1)
          (.awaitConfirmation
            { streak_dir := sd, streak_length := ssl, pullback_start_idx := pbs,
              pullback_length := pbl,
              target := compute_target sd (candles.getD lsc default).high
                (candles.getD lsc default).low ((candles.drop pbs).take pbl),
              breaking_candle_time := candles[i].time })
          trades
          (setups ++ [{ time := candles[i].time,
                        direction := if sd = 1 then .BUY else .SELL,
                        streak_length := ssl,
                        pullback_length := pbl,
                        target := compute_target sd (candles.getD lsc default).high
                          (candles.getD lsc default).low
                          ((candles.drop pbs).take pbl) }]) := by
  conv_lhs => rw [engine_loop]
  have hm : ¬ (sd = -sd) := by omega
  simp only [List.getD_eq_getElem?_getD] at hinv hbr
  simp [h, hdir, hsd, hm, hinv, hbr]

theorem engine_loop_await_doji (candles : List Candle) (i : Nat) (p : PendingSetup)
    (trades : List Trade) (setups : List Setup) (h : i < candles.length)
    (hdir : candle_dir candles[i] = 0) (hp : p.streak_dir ≠ 0) :
    engine_loop candles i (.awaitConfirmation p) trades setups
      = engine_loop candles (i + 1) .seekStreak trades setups := by
  conv_lhs => rw [engine_loop]
  have h0 : (0 : Int) ≠ p.streak_dir := Ne.symm hp
  simp [h, hdir, h0]

theorem engine_loop_await_mismatch (candles : List Candle) (i : Nat) (p : PendingSetup)
    (d : Int) (trades : List Trade) (setups : List Setup) (h : i < candles.length)
    (hdir : candle_dir candles[i] = d) (hd0 : d ≠ 0) (hne : d ≠ p.streak_dir) :
    engine_loop candles i (.awaitConfirmation p) trades setups
      = engine_loop candles (i + 1) (.inStreak d i 1) trades setups := by
  conv_lhs => rw [engine_loop]
  simp [h, hdir, hd0, hne]

theorem engine_loop_await_no_touch (candles : List Candle) (i : Nat) (p : PendingSetup)
    (trades : List Trade) (setups : List Setup) (h : i < candles.length)
    (hdir : candle_dir candles[i] = p.streak_dir)
    (hnone : find_first_target_touch candles (i + 1) p.target = none) :
    engine_loop candles i (.awaitConfirmation p) trades setups = (trades, setups) := by
  conv_lhs => rw [engine_loop]
  simp [h, hdir]
  split
  · rfl
  · next k heq =>
      rw [hnone] at heq
      exact Option.noConfusion heq

theorem engine_loop_await_trade (candles : List Candle) (i : Nat) (p : PendingSetup)
    (k : Nat) (trades : List Trade) (setups : List Setup) (h : i < candles.length)
    (hdir : candle_dir candles[i] = p.streak_dir)
    (hsome : find_first_target_touch candles (i + 1) p.target = some k) :
    engine_loop candles i (.awaitConfirmation p) trades setups
      = engine_loop candles (k + 1) .seekStreak
          (trades ++ [{ direction := if p.streak_dir = 1 then .BUY else .SELL,
                        streak_length := p.streak_length,
                        pullback_length := p.pullback_length,
                        target := p.target,
                        breaking_candle_time := p.breaking_candle_time,
                        entry := { time := candles[i].time, price := candles[i].close },
                        exit := { time := (candles.getD k default).time,
                                  price := p.target } }])
          setups := by
  conv_lhs => rw [engine_loop]
  simp [h, hdir]
  split
  · next heq =>
      rw [hsome] at heq
      exact Option.noConfusion heq
  · next k2 heq =>
      rw [hsome] at heq
      cases Option.some.inj heq
      rfl

/-! ## Gap segmentation (`backend/gap_handling.py`) -/

/-- `EXPECTED_STEP_SECONDS` from `backend/gap_handling.py`. -/
def EXPECTED_STEP_SECONDS : Int := 300

/-- The `for i in range(1, len(candles))` loop of `split_candles_on_gaps`,
with the running `start` index and accumulated `segments`; the code after the
loop (appending the nonempty tail) is the `else` branch.  Times are `Int` in
the model, so the `int(...)` conversion never raises and the `except` branch
is dead. -/
def split_loop (candles : List Candle) (i : Nat) (start : Nat)
    (segments : List (List Candle)) (expected_step_seconds : Int) : List (List Candle) :=
  if h : i < candles.length then
    let prev_time := (candles.getD (i - 1) default).time
    let curr_time := (candles.getD i default).time
    if curr_time - prev_time > expected_step_seconds then
      let seg := (candles.drop start).take (i - start)
      let segments' := if seg ≠ [] then segments ++ [seg] else segments
      split_loop candles (i + 1) i segments' expected_step_seconds
    else
      split_loop candles (i + 1) start segments expected_step_seconds
  else
    let tail := candles.drop start
    if tail ≠ [] then segments ++ [tail] else segments
termination_by candles.length - i
decreasing_by
  all_goals simp_wf
  all_goals omega

/-- `split_candles_on_gaps` from `backend/gap_handling.py`. -/
def split_candles_on_gaps (candles : List Candle) (expected_step_seconds : Int) :
    List (List Candle) :=
  if candles = [] then []
  else split_loop candles 1 0 [] expected_step_seconds

/-- `generate_trades_with_gap_resets` from `backend/gap_handling.py`:
`trades.extend(generate_trades(segment))` per segment. -/
def generate_trades_with_gap_resets (candles : List Candle)
    (expected_step_seconds : Int) : List Trade :=
  ((split_candles_on_gaps candles expected_step_seconds).map generate_trades).flatten

/-- `generate_trades_and_setups_with_gap_resets` from `backend/gap_handling.py`. -/
def generate_trades_and_setups_with_gap_resets (candles : List Candle)
    (expected_step_seconds : Int) : List Trade × List Setup :=
  (((split_candles_on_gaps candles expected_step_seconds).map
      (fun seg => (generate_trades_and_setups seg).1)).flatten,
   ((split_candles_on_gaps candles expected_step_seconds).map
      (fun seg => (generate_trades_and_setups seg).2)).flatten)

/-- Splicing identity: the run `[start, i)` followed by the rest from `i`
recovers the suffix from `start`. -/
theorem take_drop_chunk (candles : List Candle) (start i : Nat) (h : start ≤ i) :
    (candles.drop start).take (i - start) ++ candles.drop i = candles.drop start := by
  have h2 : candles.drop i = (candles.drop start).drop (i - start) := by
    rw [List.drop_drop]
    congr 1
    omega
  rw [h2, List.take_append_drop]

/-- A closed run `[start, i)` with `start < i ≤ length` is nonempty. -/
theorem chunk_ne_nil (candles : List Candle) (start i : Nat) (hlt : start < i)
    (hi : i ≤ candles.length) : (candles.drop start).take (i - start) ≠ [] := by
  have hlen : ((candles.drop start).take (i - start)).length
      = min (i - start) (candles.length - start) := by
    simp [List.length_take, List.length_drop]
  intro hnil
  rw [hnil] at hlen
  simp at hlen
  omega

/-- Loop invariant: the segments accumulated so far followed by the pending
suffix always splice back to the pending suffix of the original input. -/
theorem split_loop_join (candles : List Candle) (step : Int) (fuel : Nat) :
    ∀ i start segments, candles.length - i ≤ fuel → start < i →
      (split_loop candles i start segments step).flatten
        = segments.flatten ++ candles.drop start := by
  induction fuel with
  | zero =>
    intro i start segments hle hlt
    rw [split_loop]
    have hni : ¬ i < candles.length := by omega
    simp only [hni, dif_neg, not_false_iff]
    split
    · simp
    · next htail =>
        have : candles.drop start = [] := by
          by_contra hc
          exact htail hc
        simp [this]
  | succ f ih =>
    intro i start segments hle hlt
    by_cases hi : i < candles.length
    · rw [split_loop]
      simp only [hi, dif_pos]
      split
      · rw [ih (i + 1) i _ (by omega) (by omega)]
        have hseg := chunk_ne_nil candles start i hlt (by omega)
        simp only [hseg, if_pos, ne_eq, not_false_iff]
        rw [List.flatten_append]
        simp only [List.flatten, List.append_nil]
        rw [List.append_assoc]
        rw [take_drop_chunk candles start i (by omega)]
      · rw [ih (i + 1) start _ (by omega) (by omega)]
    · rw [split_loop]
      simp only [hi, dif_neg, not_false_iff]
      split
      · simp
      · next htail =>
          have : candles.drop start = [] := by
            by_contra hc
            exact htail hc
          simp [this]

/-- The returned segments concatenate back to the original candle list. -/
theorem split_join (candles : List Candle) (step : Int) :
    (split_candles_on_gaps candles step).flatten = candles := by
  unfold split_candles_on_gaps
  split
  · next hnil => simp [hnil]
  · next hnil =>
      have hlen : 0 < candles.length := List.length_pos.mpr hnil
      rw [split_loop_join candles step candles.length 1 0 [] (by omega) (by omega)]
      simp

/-- Within one returned segment consecutive timestamps differ by at most the
expected step (spec predicate for the gap segmenter). -/
def within_step (step : Int) (s : List Candle) : Prop :=
  s.Chain' (fun a b => b.time - a.time ≤ step)

/-- Between two adjacent returned segments the timestamp difference is
strictly greater than the expected step (spec predicate). -/
def gap_between (step : Int) (s1 s2 : List Candle) : Prop :=
  ∀ a ∈ s1.getLast?, ∀ b ∈ s2.head?, b.time - a.time > step

theorem take_one_chain {R : Candle → Candle → Prop} (l : List Candle) :
    (l.take 1).Chain' R := by
  cases l <;> simp

/-- The last candle of the run `[start, i)` is the candle at `i - 1`. -/
theorem chunk_getLast? (candles : List Candle) (start i : Nat) (hlt : start < i)
    (hi : i ≤ candles.length) :
    ((candles.drop start).take (i - start)).getLast? = candles[i - 1]? := by
  rw [List.getLast?_eq_getElem?]
  have hlen : ((candles.drop start).take (i - start)).length = i - start := by
    simp only [List.length_take, List.length_drop]
    omega
  rw [hlen, List.getElem?_take]
  simp only [show i - start - 1 < i - start by omega, if_pos]
  rw [List.getElem?_drop]
  congr 1
  omega

/-- The first candle of the run `[start, i)` is the candle at `start`. -/
theorem chunk_head? (candles : List Candle) (start i : Nat) (hlt : start < i) :
    ((candles.drop start).take (i - start)).head? = (candles.drop start).head? := by
  obtain ⟨m, hm⟩ : ∃ m, i - start = m + 1 := ⟨i - start - 1, by omega⟩
  rw [hm]
  cases candles.drop start <;> simp

/-- Extending the current run by the candle at `i` (no gap detected). -/
theorem chunk_extend (candles : List Candle) (start i : Nat) (hlt : start < i)
    (hi : i < candles.length) :
    (candles.drop start).take (i + 1 - start)
      = (candles.drop start).take (i - start) ++ [candles[i]] := by
  have h1 : i + 1 - start = (i - start) + 1 := by omega
  rw [h1, List.take_succ, List.getElem?_drop]
  have h2 : start + (i - start) = i := by omega
  rw [h2, List.getElem?_eq_getElem hi]
  simp

/-- Loop invariant: every returned segment has all consecutive timestamp
differences at most the expected step. -/
theorem split_loop_within (candles : List Candle) (step : Int) (fuel : Nat) :
    ∀ i start segments, candles.length - i ≤ fuel → start < i →
      (∀ s ∈ segments, within_step step s) →
      within_step step ((candles.drop start).take (i - start)) →
      ∀ s ∈ split_loop candles i start segments step, within_step step s := by
  induction fuel with
  | zero =>
    intro i start segments hle hlt hsegs hrun s hs
    rw [split_loop] at hs
    have hni : ¬ i < candles.length := by omega
    simp only [hni, dif_neg, not_false_iff] at hs
    split at hs
    · rcases List.mem_append.mp hs with hmem | hmem
      · exact hsegs s hmem
      · have hseq : s = candles.drop start := by simpa using hmem
        have htk : (candles.drop start).take (i - start) = candles.drop start := by
          apply List.take_of_length_le
          simp only [List.length_drop]
          omega
        rw [hseq]
        rw [htk] at hrun
        exact hrun
    · exact hsegs s hs
  | succ f ih =>
    intro i start segments hle hlt hsegs hrun s hs
    by_cases hi : i < candles.length
    · rw [split_loop] at hs
      simp only [hi, dif_pos] at hs
      split at hs
      · refine ih (i + 1) i _ (by omega) (by omega) ?_ ?_ s hs
        · intro s' hs'
          split at hs'
          · rcases List.mem_append.mp hs' with hmem | hmem
            · exact hsegs s' hmem
            · have : s' = (candles.drop start).take (i - start) := by simpa using hmem
              rw [this]
              exact hrun
          · exact hsegs s' hs'
        · simp only [within_step, show i + 1 - i = 1 from by omega]
          exact take_one_chain _
      · refine ih (i + 1) start _ (by omega) (by omega) hsegs ?_ s hs
        rw [chunk_extend candles start i hlt hi]
        rw [within_step, List.chain'_append]
        refine ⟨hrun, by simp, ?_⟩
        intro x hx y hy
        rw [chunk_getLast? candles start i hlt (by omega)] at hx
        have hx' : x = candles[i - 1] := by
          rw [List.getElem?_eq_getElem (by omega : i - 1 < candles.length)] at hx
          exact (by simpa using hx : candles[i - 1] = x).symm
        have hy' : y = candles[i] := (by simpa using hy : candles[i] = y).symm
        next hgap =>
          rw [hx', hy']
          simp only [List.getD_eq_getElem?_getD,
            List.getElem?_eq_getElem (by omega : i - 1 < candles.length),
            List.getElem?_eq_getElem hi] at hgap
          simp only [Option.getD_some] at hgap
          omega
    · rw [split_loop] at hs
      simp only [hi, dif_neg, not_false_iff] at hs
      split at hs
      · rcases List.mem_append.mp hs with hmem | hmem
        · exact hsegs s hmem
        · have hseq : s = candles.drop start := by simpa using hmem
          have htk : (candles.drop start).take (i - start) = candles.drop start := by
            apply List.take_of_length_le
            simp only [List.length_drop]
            omega
          rw [hseq]
          rw [htk] at hrun
          exact hrun
      · exact hsegs s hs

/-- Loop invariant: adjacent returned segments are separated by a strict gap. -/
theorem split_loop_across (candles : List Candle) (step : Int) (fuel : Nat) :
    ∀ i start segments, candles.length - i ≤ fuel → start < i →
      segments.Chain' (gap_between step) →
      (∀ s ∈ segments.getLast?, gap_between step s (candles.drop start)) →
      (split_loop candles i start segments step).Chain' (gap_between step) := by
  induction fuel with
  | zero =>
    intro i start segments hle hlt hchain hlast
    rw [split_loop]
    have hni : ¬ i < candles.length := by omega
    simp only [hni, dif_neg, not_false_iff]
    split
    · rw [List.chain'_append]
      refine ⟨hchain, by simp, ?_⟩
      intro x hx y hy
      have hy' : y = candles.drop start := (by simpa using hy : _ = y).symm
      rw [hy']
      exact hlast x hx
    · exact hchain
  | succ f ih =>
    intro i start segments hle hlt hchain hlast
    by_cases hi : i < candles.length
    · rw [split_loop]
      simp only [hi, dif_pos]
      split
      · next hgap =>
          have hseg := chunk_ne_nil candles start i hlt (by omega)
          simp only [hseg, if_pos, ne_eq, not_false_iff]
          refine ih (i + 1) i _ (by omega) (by omega) ?_ ?_
          · rw [List.chain'_append]
            refine ⟨hchain, by simp, ?_⟩
            intro x hx y hy
            have hy' : y = (candles.drop start).take (i - start) :=
              (by simpa using hy : _ = y).symm
            rw [hy']
            intro a ha b hb
            rw [chunk_head? candles start i hlt] at hb
            exact hlast x hx a ha b hb
          · intro s hs a ha b hb
            have hs' : s = (candles.drop start).take (i - start) := by
              rw [List.getLast?_concat] at hs
              exact (by simpa using hs : _ = s).symm
            rw [hs'] at ha
            rw [chunk_getLast? candles start i hlt (by omega)] at ha
            have ha' : a = candles[i - 1] := by
              rw [List.getElem?_eq_getElem (by omega : i - 1 < candles.length)] at ha
              exact (by simpa using ha : candles[i - 1] = a).symm
            have hb' : b = candles[i] := by
              rw [List.head?_drop, List.getElem?_eq_getElem hi] at hb
              exact (by simpa using hb : candles[i] = b).symm
            rw [ha', hb']
            simp only [List.getD_eq_getElem?_getD,
              List.getElem?_eq_getElem (by omega : i - 1 < candles.length),
              List.getElem?_eq_getElem hi, Option.getD_some] at hgap
            omega
      · refine ih (i + 1) start _ (by omega) (by omega) hchain hlast
    · rw [split_loop]
      simp only [hi, dif_neg, not_false_iff]
      split
      · rw [List.chain'_append]
        refine ⟨hchain, by simp, ?_⟩
        intro x hx y hy
        have hy' : y = candles.drop start := (by simpa using hy : _ = y).symm
        rw [hy']
        exact hlast x hx
      · exact hchain

/-- Loop invariant: only nonempty runs are ever appended. -/
theorem split_loop_ne_nil (candles : List Candle) (step : Int) (fuel : Nat) :
    ∀ i start segments, candles.length - i ≤ fuel →
      (∀ s ∈ segments, s ≠ []) →
      ∀ s ∈ split_loop candles i start segments step, s ≠ [] := by
  induction fuel with
  | zero =>
    intro i start segments hle hsegs s hs
    rw [split_loop] at hs
    have hni : ¬ i < candles.length := by omega
    simp only [hni, dif_neg, not_false_iff] at hs
    split at hs
    · next htail =>
        rcases List.mem_append.mp hs with hmem | hmem
        · exact hsegs s hmem
        · have : s = candles.drop start := by simpa using hmem
          rw [this]
          exact htail
    · exact hsegs s hs
  | succ f ih =>
    intro i start segments hle hsegs s hs
    by_cases hi : i < candles.length
    · rw [split_loop] at hs
      simp only [hi, dif_pos] at hs
      split at hs
      · refine ih (i + 1) i _ (by omega) ?_ s hs
        intro s' hs'
        split at hs'
        · next hne =>
            rcases List.mem_append.mp hs' with hmem | hmem
            · exact hsegs s' hmem
            · have : s' = (candles.drop start).take (i - start) := by simpa using hmem
              rw [this]
              exact hne
        · exact hsegs s' hs'
      · exact ih (i + 1) start _ (by omega) hsegs s hs
    · rw [split_loop] at hs
      simp only [hi, dif_neg, not_false_iff] at hs
      split at hs
      · next htail =>
          rcases List.mem_append.mp hs with hmem | hmem
          · exact hsegs s hmem
          · have : s = candles.drop start := by simpa using hmem
            rw [this]
            exact htail
      · exact hsegs s hs

/-- Convenience constructor for concrete candles (volume 0). -/
def mkC (t : Int) (o h l c : ℚ) : Candle := ⟨t, o, h, l, c, 0⟩

/-- A 7-candle segment: 4-candle bullish streak (LSC open 1030, high 1040,
low 1030), one bearish pullback candle touching the midpoint 1035, a breaking
candle closing at 1025 < target 1030, and a confirmation candle — but no
candle after the confirmation ever touches the target. -/
def demoNoExit : List Candle :=
  [mkC 0 1000 1010 1000 1010, mkC 300 1010 1020 1010 1020, mkC 600 1020 1030 1020 1030,
   mkC 900 1030 1040 1030 1040, mkC 1200 1038 1038 1034 1034, mkC 1500 1020 1028 1019 1025,
   mkC 1800 1020 1029 1020 1028]

/-- `demoNoExit` plus one final candle whose range contains the target. -/
def demoTouch : List Candle := demoNoExit ++ [mkC 2100 1026 1032 1026 1031]

/-- Concrete run of the engine: one completed trade and one setup. -/
theorem demoTouch_eval :
    generate_trades_and_setups demoTouch
      = ([{ direction := .BUY, streak_length := 4, pullback_length := 1, target := 1030,
            breaking_candle_time := 1500,
            entry := { time := 1800, price := 1028 },
            exit := { time := 2100, price := 1030 } }],
         [{ time := 1500, direction := .BUY, streak_length := 4, pullback_length := 1,
            target := 1030 }]) := by
  have e0 : engine_loop demoTouch 0 .seekStreak [] []
      = engine_loop demoTouch 1 (.inStreak 1 0 1) [] [] :=
    engine_loop_seek_start demoTouch 0 1 [] [] (by decide)
      (by norm_num [candle_dir, demoTouch, demoNoExit, mkC]) (by decide)
  have e1 : engine_loop demoTouch 1 (.inStreak 1 0 1) [] []
      = engine_loop demoTouch 2 (.inStreak 1 0 2) [] [] :=
    engine_loop_instreak_extend demoTouch 1 1 0 1 [] [] (by decide)
      (by norm_num [candle_dir, demoTouch, demoNoExit, mkC])
  have e2 : engine_loop demoTouch 2 (.inStreak 1 0 2) [] []
      = engine_loop demoTouch 3 (.inStreak 1 0 3) [] [] :=
    engine_loop_instreak_extend demoTouch 2 1 0 2 [] [] (by decide)
      (by norm_num [candle_dir, demoTouch, demoNoExit, mkC])
  have e3 : engine_loop demoTouch 3 (.inStreak 1 0 3) [] []
      = engine_loop demoTouch 4 (.inStreak 1 0 4) [] [] :=
    engine_loop_instreak_extend demoTouch 3 1 0 3 [] [] (by decide)
      (by norm_num [candle_dir, demoTouch, demoNoExit, mkC])
  have e4 : engine_loop demoTouch 4 (.inStreak 1 0 4) [] []
      = engine_loop demoTouch 5 (.inPullback 1 3 4 4 1) [] [] :=
    engine_loop_instreak_to_pullback demoTouch 4 1 (-1) 0 4 [] []
      (by decide) (by norm_num [candle_dir, demoTouch, demoNoExit, mkC])
      (by decide) (by decide) (by decide)
  have htgt : compute_target 1 (demoTouch.getD 3 default).high (demoTouch.getD 3 default).low
      ((demoTouch.drop 4).take 1) = 1030 := by
    norm_num [compute_target, pb_min_low, demoTouch, demoNoExit, mkC]
  have e5 : engine_loop demoTouch 5 (.inPullback 1 3 4 4 1) [] []
      = engine_loop demoTouch 6
          (.awaitConfirmation { streak_dir := 1, streak_length := 4, pullback_start_idx := 4,
                                pullback_length := 1, target := 1030,
                                breaking_candle_time := 1500 })
          [] [{ time := 1500, direction := .BUY, streak_length := 4, pullback_length := 1,
                target := 1030 }] := by
    have h := engine_loop_pullback_break_ok demoTouch 5 1 3 4 4 1 [] []
      (by decide) (by norm_num [candle_dir, demoTouch, demoNoExit, mkC]) (by decide)
      (by norm_num [pullback_invalid, pb_min_low, demoTouch, demoNoExit, mkC])
      (by norm_num [breaking_condition, compute_target, pb_min_low, demoTouch, demoNoExit, mkC])
    rw [htgt] at h
    simpa [demoTouch, demoNoExit, mkC] using h
  have hf : find_first_target_touch demoTouch 7 1030 = some 7 := by
    rw [find_first_target_touch]
    norm_num [demoTouch, demoNoExit, mkC]
  have e6 : engine_loop demoTouch 6
        (.awaitConfirmation { streak_dir := 1, streak_length := 4, pullback_start_idx := 4,
                              pullback_length := 1, target := 1030,
                              breaking_candle_time := 1500 })
        [] [{ time := 1500, direction := .BUY, streak_length := 4, pullback_length := 1,
              target := 1030 }]
      = engine_loop demoTouch 8 .seekStreak
          [{ direction := .BUY, streak_length := 4, pullback_length := 1, target := 1030,
             breaking_candle_time := 1500,
             entry := { time := 1800, price := 1028 },
             exit := { time := 2100, price := 1030 } }]
          [{ time := 1500, direction := .BUY, streak_length := 4, pullback_length := 1,
             target := 1030 }] := by
    have h := engine_loop_await_trade demoTouch 6
      { streak_dir := 1, streak_length := 4, pullback_start_idx := 4,
        pullback_length := 1, target := 1030, breaking_candle_time := 1500 }
      7 []
      [{ time := 1500, direction := .BUY, streak_length := 4, pullback_length := 1,
         target := 1030 }]
      (by decide) (by norm_num [candle_dir, demoTouch, demoNoExit, mkC]) hf
    simpa [demoTouch, demoNoExit, mkC] using h
  have e7 := engine_loop_exhausted demoTouch 8
    (.seekStreak)
    [{ direction := .BUY, streak_length := 4, pullback_length := 1, target := 1030,
       breaking_candle_time := 1500,
       entry := { time := 1800, price := 1028 },
       exit := { time := 2100, price := 1030 } }]
    [{ time := 1500, direction := .BUY, streak_length := 4, pullback_length := 1,
       target := 1030 }]
    (by decide)
  simp only [generate_trades_and_setups, if_neg (by decide : ¬ demoTouch = [])]
  rw [e0, e1, e2, e3, e4, e5, e6, e7]

/-- Concrete run with an unresolved confirmed entry: no trades, one setup. -/
theorem demoNoExit_eval :
    generate_trades_and_setups demoNoExit
      = ([], [{ time := 1500, direction := .BUY, streak_length := 4, pullback_length := 1,
                target := 1030 }]) := by
  have e0 : engine_loop demoNoExit 0 .seekStreak [] []
      = engine_loop demoNoExit 1 (.inStreak 1 0 1) [] [] :=
    engine_loop_seek_start demoNoExit 0 1 [] [] (by decide)
      (by norm_num [candle_dir, demoNoExit, mkC]) (by decide)
  have e1 : engine_loop demoNoExit 1 (.inStreak 1 0 1) [] []
      = engine_loop demoNoExit 2 (.inStreak 1 0 2) [] [] :=
    engine_loop_instreak_extend demoNoExit 1 1 0 1 [] [] (by decide)
      (by norm_num [candle_dir, demoNoExit, mkC])
  have e2 : engine_loop demoNoExit 2 (.inStreak 1 0 2) [] []
      = engine_loop demoNoExit 3 (.inStreak 1 0 3) [] [] :=
    engine_loop_instreak_extend demoNoExit 2 1 0 2 [] [] (by decide)
      (by norm_num [candle_dir, demoNoExit, mkC])
  have e3 : engine_loop demoNoExit 3 (.inStreak 1 0 3) [] []
      = engine_loop demoNoExit 4 (.inStreak 1 0 4) [] [] :=
    engine_loop_instreak_extend demoNoExit 3 1 0 3 [] [] (by decide)
      (by norm_num [candle_dir, demoNoExit, mkC])
  have e4 : engine_loop demoNoExit 4 (.inStreak 1 0 4) [] []
      = engine_loop demoNoExit 5 (.inPullback 1 3 4 4 1) [] [] :=
    engine_loop_instreak_to_pullback demoNoExit 4 1 (-1) 0 4 [] []
      (by decide) (by norm_num [candle_dir, demoNoExit, mkC])
      (by decide) (by decide) (by decide)
  have htgt : compute_target 1 (demoNoExit.getD 3 default).high (demoNoExit.getD 3 default).low
      ((demoNoExit.drop 4).take 1) = 1030 := by
    norm_num [compute_target, pb_min_low, demoNoExit, mkC]
  have e5 : engine_loop demoNoExit 5 (.inPullback 1 3 4 4 1) [] []
      = engine_loop demoNoExit 6
          (.awaitConfirmation { streak_dir := 1, streak_length := 4, pullback_start_idx := 4,
                                pullback_length := 1, target := 1030,
                                breaking_candle_time := 1500 })
          [] [{ time := 1500, direction := .BUY, streak_length := 4, pullback_length := 1,
                target := 1030 }] := by
    have h := engine_loop_pullback_break_ok demoNoExit 5 1 3 4 4 1 [] []
      (by decide) (by norm_num [candle_dir, demoNoExit, mkC]) (by decide)
      (by norm_num [pullback_invalid, pb_min_low, demoNoExit, mkC])
      (by norm_num [breaking_condition, compute_target, pb_min_low, demoNoExit, mkC])
    rw [htgt] at h
    simpa [demoNoExit, mkC] using h
  have hf : find_first_target_touch demoNoExit 7 1030 = none := by
    rw [find_first_target_touch]
    norm_num [demoNoExit, mkC]
  have e6 : engine_loop demoNoExit 6
        (.awaitConfirmation { streak_dir := 1, streak_length := 4, pullback_start_idx := 4,
                              pullback_length := 1, target := 1030,
                              breaking_candle_time := 1500 })
        [] [{ time := 1500, direction := .BUY, streak_length := 4, pullback_length := 1,
              target := 1030 }]
      = ([], [{ time := 1500, direction := .BUY, streak_length := 4, pullback_length := 1,
                target := 1030 }]) :=
    engine_loop_await_no_touch demoNoExit 6
      { streak_dir := 1, streak_length := 4, pullback_start_idx := 4,
        pullback_length := 1, target := 1030, breaking_candle_time := 1500 }
      []
      [{ time := 1500, direction := .BUY, streak_length := 4, pullback_length := 1,
         target := 1030 }]
      (by decide) (by norm_num [candle_dir, demoNoExit, mkC]) hf
  simp only [generate_trades_and_setups, if_neg (by decide : ¬ demoNoExit = [])]
  rw [e0, e1, e2, e3, e4, e5, e6]

/-- Three candles with a 700-second jump between the 2nd and 3rd. -/
def gapDemo : List Candle :=
  [mkC 0 1000 1010 1000 1010, mkC 300 1010 1020 1010 1020, mkC 1000 1020 1030 1020 1030]

/-- Concrete run of the gap segmenter: two segments. -/
theorem gapDemo_eval :
    split_candles_on_gaps gapDemo 300
      = [[mkC 0 1000 1010 1000 1010, mkC 300 1010 1020 1010 1020],
         [mkC 1000 1020 1030 1020 1030]] := by
  have s1 : split_loop gapDemo 1 0 [] 300 = split_loop gapDemo 2 0 [] 300 := by
    rw [split_loop]
    norm_num [gapDemo, mkC]
  have s2 : split_loop gapDemo 2 0 [] 300
      = split_loop gapDemo 3 2 [[mkC 0 1000 1010 1000 1010, mkC 300 1010 1020 1010 1020]] 300 := by
    rw [split_loop]
    norm_num [gapDemo, mkC]
    simp
  have s3 : split_loop gapDemo 3 2 [[mkC 0 1000 1010 1000 1010, mkC 300 1010 1020 1010 1020]] 300
      = [[mkC 0 1000 1010 1000 1010, mkC 300 1010 1020 1010 1020],
         [mkC 1000 1020 1030 1020 1030]] := by
    rw [split_loop]
    norm_num [gapDemo, mkC]
  simp only [split_candles_on_gaps, if_neg (by decide : ¬ gapDemo = [])]
  rw [s1, s2, s3]

/-! ## Forward touch scanner: characterization -/

/-- `low ≤ target ≤ high`: the candle's range contains the target. -/
def touches (c : Candle) (tgt : ℚ) : Prop := c.low ≤ tgt ∧ tgt ≤ c.high

instance (c : Candle) (tgt : ℚ) : Decidable (touches c tgt) := by
  unfold touches
  infer_instance

theorem find_some_lt (candles : List Candle) (start_idx : Nat) (target : ℚ) (k : Nat)
    (hfind : find_first_target_touch candles start_idx target = some k) :
    k < candles.length := by
  have H : ∀ fuel s, candles.length - s ≤ fuel →
      find_first_target_touch candles s target = some k → k < candles.length := by
    intro fuel
    induction fuel with
    | zero =>
      intro s hle hf
      unfold find_first_target_touch at hf
      have hns : ¬ s < candles.length := by omega
      simp [hns] at hf
    | succ f ih =>
      intro s hle hf
      unfold find_first_target_touch at hf
      split at hf
      · dsimp only at hf
        split at hf
        · have hs : s < candles.length := by assumption
          have := Option.some.inj hf
          omega
        · have hs : s < candles.length := by assumption
          exact ih (s + 1) (by omega) hf
      · exact absurd hf (by simp)
  exact H (candles.length - start_idx) start_idx (le_refl _) hfind

theorem find_some_touches (candles : List Candle) (start_idx : Nat) (target : ℚ) (k : Nat)
    (hfind : find_first_target_touch candles start_idx target = some k) :
    touches (candles.getD k default) target := by
  have H : ∀ fuel s, candles.length - s ≤ fuel →
      find_first_target_touch candles s target = some k →
      touches (candles.getD k default) target := by
    intro fuel
    induction fuel with
    | zero =>
      intro s hle hf
      unfold find_first_target_touch at hf
      have hns : ¬ s < candles.length := by omega
      simp [hns] at hf
    | succ f ih =>
      intro s hle hf
      unfold find_first_target_touch at hf
      split at hf
      · dsimp only at hf
        split at hf
        · next htch =>
            cases Option.some.inj hf
            exact htch
        · have hs : s < candles.length := by assumption
          exact ih (s + 1) (by omega) hf
      · exact absurd hf (by simp)
  exact H (candles.length - start_idx) start_idx (le_refl _) hfind

theorem find_some_min (candles : List Candle) (start_idx : Nat) (target : ℚ) (k : Nat)
    (hfind : find_first_target_touch candles start_idx target = some k) :
    ∀ j, start_idx ≤ j → j < k → ¬ touches (candles.getD j default) target := by
  have H : ∀ fuel s, candles.length - s ≤ fuel →
      find_first_target_touch candles s target = some k →
      ∀ j, s ≤ j → j < k → ¬ touches (candles.getD j default) target := by
    intro fuel
    induction fuel with
    | zero =>
      intro s hle hf
      unfold find_first_target_touch at hf
      have hns : ¬ s < candles.length := by omega
      simp [hns] at hf
    | succ f ih =>
      intro s hle hf j hsj hjk
      unfold find_first_target_touch at hf
      split at hf
      · dsimp only at hf
        split at hf
        · cases Option.some.inj hf
          omega
        · next htch =>
            have hs : s < candles.length := by assumption
            rcases Nat.eq_or_lt_of_le hsj with heq | hlt
            · rw [← heq]
              exact htch
            · exact ih (s + 1) (by omega) hf j hlt hjk
      · exact absurd hf (by simp)
  exact H (candles.length - start_idx) start_idx (le_refl _) hfind

/-- The tri-state of `_candle_dir`. -/
theorem candle_dir_cases (c : Candle) :
    candle_dir c = 1 ∨ candle_dir c = -1 ∨ candle_dir c = 0 := by
  unfold candle_dir
  split_ifs <;> simp

/-! ## Record invariants of the engine -/

/-- Specification of one returned trade against the candle segment: there is a
confirmation candle `i` matching the trade's direction whose time/close give
the entry, and an exit candle `k` — the first candle strictly after `i` whose
range contains the target — whose time gives the exit time; the exit price is
the target itself. -/
def TradeSpec (candles : List Candle) (t : Trade) : Prop :=
  ∃ i k : Nat, i < k ∧ k < candles.length ∧
    candle_dir (candles.getD i default) = (if t.direction = .BUY then 1 else -1) ∧
    t.entry.time = (candles.getD i default).time ∧
    t.entry.price = (candles.getD i default).close ∧
    t.exit.price = t.target ∧
    t.exit.time = (candles.getD k default).time ∧
    touches (candles.getD k default) t.target ∧
    ∀ j, i < j → j < k → ¬ touches (candles.getD j default) t.target

/-- All record invariants of a returned trade. -/
def TradeRec (candles : List Candle) (t : Trade) : Prop :=
  4 ≤ t.streak_length ∧ (t.pullback_length = 1 ∨ t.pullback_length = 2) ∧
  TradeSpec candles t

/-- Record invariants of a returned setup. -/
def SetupRec (s : Setup) : Prop :=
  4 ≤ s.streak_length ∧ (s.pullback_length = 1 ∨ s.pullback_length = 2)

/-- Reachable-state well-formedness of the scan loop. -/
def StateOK : EngState → Prop
  | .seekStreak => True
  | .inStreak sd _ _ => sd = 1 ∨ sd = -1
  | .inPullback sd _ ssl _ pbl => (sd = 1 ∨ sd = -1) ∧ 4 ≤ ssl ∧ (pbl = 1 ∨ pbl = 2)
  | .awaitConfirmation p =>
      (p.streak_dir = 1 ∨ p.streak_dir = -1) ∧ 4 ≤ p.streak_length ∧
      (p.pullback_length = 1 ∨ p.pullback_length = 2)

/-- Master invariant: from a well-formed state, every trade and setup in the
final output satisfies its record invariant. -/
theorem engine_loop_records (candles : List Candle) (fuel : Nat) :
    ∀ i st trades setups, candles.length - i ≤ fuel → StateOK st →
      (∀ t ∈ trades, TradeRec candles t) →
      (∀ s ∈ setups, SetupRec s) →
      (∀ t ∈ (engine_loop candles i st trades setups).1, TradeRec candles t) ∧
      (∀ s ∈ (engine_loop candles i st trades setups).2, SetupRec s) := by
  induction fuel with
  | zero =>
    intro i st trades setups hle hst htr hsu
    rw [engine_loop_exhausted candles i st trades setups (by omega)]
    exact ⟨htr, hsu⟩
  | succ f ih =>
    intro i st trades setups hle hst htr hsu
    by_cases hi : i < candles.length
    swap
    · rw [engine_loop_exhausted candles i st trades setups hi]
      exact ⟨htr, hsu⟩
    · cases st with
      | seekStreak =>
        by_cases hd0 : candle_dir candles[i] = 0
        · rw [engine_loop_seek_doji candles i trades setups hi hd0]
          exact ih (i + 1) _ trades setups (by omega) trivial htr hsu
        · rw [engine_loop_seek_start candles i (candle_dir candles[i]) trades setups hi rfl hd0]
          refine ih (i + 1) _ trades setups (by omega) ?_ htr hsu
          show candle_dir candles[i] = 1 ∨ candle_dir candles[i] = -1
          rcases candle_dir_cases candles[i] with h | h | h
          · exact Or.inl h
          · exact Or.inr h
          · exact absurd h hd0
      | inStreak sd ssi sl =>
        by_cases hds : candle_dir candles[i] = sd
        · rw [engine_loop_instreak_extend candles i sd ssi sl trades setups hi hds]
          exact ih (i + 1) _ trades setups (by omega) hst htr hsu
        · by_cases hd0 : candle_dir candles[i] = 0
          · rw [engine_loop_instreak_doji candles i sd ssi sl trades setups hi hd0
              (by rcases hst with h | h <;> omega)]
            exact ih (i + 1) _ trades setups (by omega) trivial htr hsu
          · by_cases hsl : 4 ≤ sl
            · rw [engine_loop_instreak_to_pullback candles i sd (candle_dir candles[i])
                ssi sl trades setups hi rfl hds hd0 hsl]
              exact ih (i + 1) _ trades setups (by omega) ⟨hst, hsl, Or.inl rfl⟩ htr hsu
            · rw [engine_loop_instreak_short candles i sd (candle_dir candles[i])
                ssi sl trades setups hi rfl hds hd0 (by omega)]
              refine ih (i + 1) _ trades setups (by omega) ?_ htr hsu
              show candle_dir candles[i] = 1 ∨ candle_dir candles[i] = -1
              rcases candle_dir_cases candles[i] with h | h | h
              · exact Or.inl h
              · exact Or.inr h
              · exact absurd h hd0
      | inPullback sd lsc ssl pbs pbl =>
        obtain ⟨hsd, hssl, hpbl⟩ := hst
        have hsd0 : sd ≠ 0 := by rcases hsd with h | h <;> omega
        by_cases hd0 : candle_dir candles[i] = 0
        · rw [engine_loop_pullback_doji candles i sd lsc ssl pbs pbl trades setups hi hd0]
          exact ih (i + 1) _ trades setups (by omega) trivial htr hsu
        · by_cases hdm : candle_dir candles[i] = -sd
          · rcases hpbl with hp1 | hp2
            · subst hp1
              rw [engine_loop_pullback_extend candles i sd lsc ssl pbs trades setups hi hdm hsd0]
              exact ih (i + 1) _ trades setups (by omega) ⟨hsd, hssl, Or.inr rfl⟩ htr hsu
            · subst hp2
              rw [engine_loop_pullback_third candles i sd lsc ssl pbs 2 trades setups hi hdm
                hsd0 (by omega)]
              refine ih (i + 1) _ trades setups (by omega) ?_ htr hsu
              show -sd = 1 ∨ -sd = -1
              rcases hsd with h | h <;> omega
          · by_cases hds : candle_dir candles[i] = sd
            · cases hinv : pullback_invalid sd (candles.getD lsc default).open_
                ((candles.drop pbs).take pbl) with
              | true =>
                rw [engine_loop_pullback_break_invalid candles i sd lsc ssl pbs pbl trades
                  setups hi hds hsd0 hinv]
                exact ih (i + 1) _ trades setups (by omega) hsd htr hsu
              | false =>
                cases hbr : breaking_condition sd candles[i].close
                  (compute_target sd (candles.getD lsc default).high
                    (candles.getD lsc default).low ((candles.drop pbs).take pbl)) with
                | false =>
                  rw [engine_loop_pullback_break_fail candles i sd lsc ssl pbs pbl trades
                    setups hi hds hsd0 hinv hbr]
                  refine ih (i + 1) _ trades _ (by omega) hsd htr ?_
                  intro s hs
                  rcases List.mem_append.mp hs with hmem | hmem
                  · exact hsu s hmem
                  · rw [List.mem_singleton.mp hmem]
                    exact ⟨hssl, hpbl⟩
                | true =>
                  rw [engine_loop_pullback_break_ok candles i sd lsc ssl pbs pbl trades
                    setups hi hds hsd0 hinv hbr]
                  refine ih (i + 1) _ trades _ (by omega) ⟨hsd, hssl, hpbl⟩ htr ?_
                  intro s hs
                  rcases List.mem_append.mp hs with hmem | hmem
                  · exact hsu s hmem
                  · rw [List.mem_singleton.mp hmem]
                    exact ⟨hssl, hpbl⟩
            · rw [engine_loop_pullback_defensive candles i sd (candle_dir candles[i]) lsc ssl
                pbs pbl trades setups hi rfl hd0 hdm hds]
              exact ih (i + 1) _ trades setups (by omega) trivial htr hsu
      | awaitConfirmation p =>
        obtain ⟨hpd, hpsl, hppl⟩ := hst
        have hpd0 : p.streak_dir ≠ 0 := by rcases hpd with h | h <;> omega
        by_cases heq : candle_dir candles[i] = p.streak_dir
        · cases hfind : find_first_target_touch candles (i + 1) p.target with
          | none =>
            rw [engine_loop_await_no_touch candles i p trades setups hi heq hfind]
            exact ⟨htr, hsu⟩
          | some k =>
            rw [engine_loop_await_trade candles i p k trades setups hi heq hfind]
            have hk1 : i + 1 ≤ k := find_some_ge candles (i + 1) p.target k hfind
            have hk2 : k < candles.length := find_some_lt candles (i + 1) p.target k hfind
            have hgd : candles.getD i default = candles[i] := by
              simp [List.getD_eq_getElem?_getD, List.getElem?_eq_getElem hi]
            refine ih (k + 1) _ _ setups (by omega) trivial ?_ hsu
            intro t ht
            rcases List.mem_append.mp ht with hmem | hmem
            · exact htr t hmem
            · rw [List.mem_singleton.mp hmem]
              refine ⟨hpsl, hppl, i, k, by omega, hk2, ?_, ?_, ?_, rfl, rfl,
                find_some_touches candles (i + 1) p.target k hfind, ?_⟩
              · rw [hgd, heq]
                rcases hpd with h | h <;> rw [h] <;> simp
              · rw [hgd]
              · rw [hgd]
              · intro j hij hjk
                exact find_some_min candles (i + 1) p.target k hfind j (by omega) hjk
        · by_cases hd0 : candle_dir candles[i] = 0
          · rw [engine_loop_await_doji candles i p trades setups hi hd0 hpd0]
            exact ih (i + 1) _ trades setups (by omega) trivial htr hsu
          · rw [engine_loop_await_mismatch candles i p (candle_dir candles[i]) trades setups
              hi rfl hd0 heq]
            refine ih (i + 1) _ trades setups (by omega) ?_ htr hsu
            show candle_dir candles[i] = 1 ∨ candle_dir candles[i] = -1
            rcases candle_dir_cases candles[i] with h | h | h
            · exact Or.inl h
            · exact Or.inr h
            · exact absurd h hd0

/-! ## Time-ordering invariants of the engine -/

/-- Strictly increasing candle times, index-wise. -/
theorem times_mono (candles : List Candle)
    (hmono : candles.Pairwise (fun a b => a.time < b.time)) :
    ∀ {a b : Nat} (ha : a < candles.length) (hb : b < candles.length), a < b →
      candles[a].time < candles[b].time := by
  intro a b ha hb hab
  exact List.pairwise_iff_getElem.mp hmono a b ha hb hab

/-- Master invariant: with strictly increasing candle times the returned
trades are chained (`exit` strictly before the next `entry`), every trade
exits strictly after it enters, and setups carry strictly increasing times. -/
theorem engine_loop_times (candles : List Candle)
    (hmono : candles.Pairwise (fun a b => a.time < b.time)) (fuel : Nat) :
    ∀ i st trades setups, candles.length - i ≤ fuel →
      trades.Pairwise (fun t1 t2 => t1.exit.time < t2.entry.time) →
      (∀ t ∈ trades, t.entry.time < t.exit.time) →
      (∀ t ∈ trades, ∀ h2 : i < candles.length, t.exit.time < candles[i].time) →
      setups.Pairwise (fun s1 s2 => s1.time < s2.time) →
      (∀ s ∈ setups, ∀ h2 : i < candles.length, s.time < candles[i].time) →
      (engine_loop candles i st trades setups).1.Pairwise
        (fun t1 t2 => t1.exit.time < t2.entry.time) ∧
      (∀ t ∈ (engine_loop candles i st trades setups).1, t.entry.time < t.exit.time) ∧
      (engine_loop candles i st trades setups).2.Pairwise
        (fun s1 s2 => s1.time < s2.time) := by
  induction fuel with
  | zero =>
    intro i st trades setups hle htp hte htc hsp hsc
    rw [engine_loop_exhausted candles i st trades setups (by omega)]
    exact ⟨htp, hte, hsp⟩
  | succ f ih =>
    intro i st trades setups hle htp hte htc hsp hsc
    by_cases hi : i < candles.length
    swap
    · rw [engine_loop_exhausted candles i st trades setups hi]
      exact ⟨htp, hte, hsp⟩
    · have htc' : ∀ t ∈ trades, ∀ h2 : i + 1 < candles.length,
          t.exit.time < candles[i + 1].time := fun t ht h2 =>
        lt_trans (htc t ht hi) (times_mono candles hmono hi h2 (by omega))
      have hsc' : ∀ s ∈ setups, ∀ h2 : i + 1 < candles.length,
          s.time < candles[i + 1].time := fun s hs h2 =>
        lt_trans (hsc s hs hi) (times_mono candles hmono hi h2 (by omega))
      cases st with
      | seekStreak =>
        by_cases hd0 : candle_dir candles[i] = 0
        · rw [engine_loop_seek_doji candles i trades setups hi hd0]
          exact ih (i + 1) _ trades setups (by omega) htp hte htc' hsp hsc'
        · rw [engine_loop_seek_start candles i (candle_dir candles[i]) trades setups hi rfl hd0]
          exact ih (i + 1) _ trades setups (by omega) htp hte htc' hsp hsc'
      | inStreak sd ssi sl =>
        by_cases hds : candle_dir candles[i] = sd
        · rw [engine_loop_instreak_extend candles i sd ssi sl trades setups hi hds]
          exact ih (i + 1) _ trades setups (by omega) htp hte htc' hsp hsc'
        · by_cases hd0 : candle_dir candles[i] = 0
          · by_cases hsd0 : sd = 0
            · rw [hsd0] at hds
              exact absurd hd0 hds
            · rw [engine_loop_instreak_doji candles i sd ssi sl trades setups hi hd0 hsd0]
              exact ih (i + 1) _ trades setups (by omega) htp hte htc' hsp hsc'
          · by_cases hsl : 4 ≤ sl
            · rw [engine_loop_instreak_to_pullback candles i sd (candle_dir candles[i])
                ssi sl trades setups hi rfl hds hd0 hsl]
              exact ih (i + 1) _ trades setups (by omega) htp hte htc' hsp hsc'
            · rw [engine_loop_instreak_short candles i sd (candle_dir candles[i])
                ssi sl trades setups hi rfl hds hd0 (by omega)]
              exact ih (i + 1) _ trades setups (by omega) htp hte htc' hsp hsc'
      | inPullback sd lsc ssl pbs pbl =>
        by_cases hd0 : candle_dir candles[i] = 0
        · rw [engine_loop_pullback_doji candles i sd lsc ssl pbs pbl trades setups hi hd0]
          exact ih (i + 1) _ trades setups (by omega) htp hte htc' hsp hsc'
        · by_cases hdm : candle_dir candles[i] = -sd
          · have hsd0 : sd ≠ 0 := by
              intro hc
              rw [hc] at hdm
              simp at hdm
              exact hd0 hdm
            by_cases hp1 : pbl = 1
            · subst hp1
              rw [engine_loop_pullback_extend candles i sd lsc ssl pbs trades setups hi hdm hsd0]
              exact ih (i + 1) _ trades setups (by omega) htp hte htc' hsp hsc'
            · rw [engine_loop_pullback_third candles i sd lsc ssl pbs pbl trades setups hi hdm
                hsd0 hp1]
              exact ih (i + 1) _ trades setups (by omega) htp hte htc' hsp hsc'
          · by_cases hds : candle_dir candles[i] = sd
            · have hsd0 : sd ≠ 0 := fun hc => hd0 (by rw [hds, hc])
              cases hinv : pullback_invalid sd (candles.getD lsc default).open_
                  ((candles.drop pbs).take pbl) with
              | true =>
                rw [engine_loop_pullback_break_invalid candles i sd lsc ssl pbs pbl trades
                  setups hi hds hsd0 hinv]
                exact ih (i + 1) _ trades setups (by omega) htp hte htc' hsp hsc'
              | false =>
                cases hbr : breaking_condition sd candles[i].close
                  (compute_target sd (candles.getD lsc default).high
                    (candles.getD lsc default).low ((candles.drop pbs).take pbl)) with
                | false =>
                  rw [engine_loop_pullback_break_fail candles i sd lsc ssl pbs pbl trades
                    setups hi hds hsd0 hinv hbr]
                  refine ih (i + 1) _ trades _ (by omega) htp hte htc' ?_ ?_
                  · rw [List.pairwise_append]
                    refine ⟨hsp, by simp, ?_⟩
                    intro s hs s' hs'
                    rw [List.mem_singleton.mp hs']
                    exact hsc s hs hi
                  · intro s' hs' h2
                    rcases List.mem_append.mp hs' with hmem | hmem
                    · exact hsc' s' hmem h2
                    · rw [List.mem_singleton.mp hmem]
                      exact times_mono candles hmono hi h2 (by omega)
                | true =>
                  rw [engine_loop_pullback_break_ok candles i sd lsc ssl pbs pbl trades
                    setups hi hds hsd0 hinv hbr]
                  refine ih (i + 1) _ trades _ (by omega) htp hte htc' ?_ ?_
                  · rw [List.pairwise_append]
                    refine ⟨hsp, by simp, ?_⟩
                    intro s hs s' hs'
                    rw [List.mem_singleton.mp hs']
                    exact hsc s hs hi
                  · intro s' hs' h2
                    rcases List.mem_append.mp hs' with hmem | hmem
                    · exact hsc' s' hmem h2
                    · rw [List.mem_singleton.mp hmem]
                      exact times_mono candles hmono hi h2 (by omega)
            · rw [engine_loop_pullback_defensive candles i sd (candle_dir candles[i]) lsc ssl
                pbs pbl trades setups hi rfl hd0 hdm hds]
              exact ih (i + 1) _ trades setups (by omega) htp hte htc' hsp hsc'
      | awaitConfirmation p =>
        by_cases heq : candle_dir candles[i] = p.streak_dir
        · cases hfind : find_first_target_touch candles (i + 1) p.target with
          | none =>
            rw [engine_loop_await_no_touch candles i p trades setups hi heq hfind]
            exact ⟨htp, hte, hsp⟩
          | some k =>
            rw [engine_loop_await_trade candles i p k trades setups hi heq hfind]
            have hk1 : i + 1 ≤ k := find_some_ge candles (i + 1) p.target k hfind
            have hk2 : k < candles.length := find_some_lt candles (i + 1) p.target k hfind
            have hgdk : candles.getD k default = candles[k] := by
              simp [List.getD_eq_getElem?_getD, List.getElem?_eq_getElem hk2]
            refine ih (k + 1) _ _ setups (by omega) ?_ ?_ ?_ hsp ?_
            · rw [List.pairwise_append]
              refine ⟨htp, by simp, ?_⟩
              intro t ht t' ht'
              rw [List.mem_singleton.mp ht']
              exact htc t ht hi
            · intro t ht
              rcases List.mem_append.mp ht with hmem | hmem
              · exact hte t hmem
              · rw [List.mem_singleton.mp hmem]
                show candles[i].time < (candles.getD k default).time
                rw [hgdk]
                exact times_mono candles hmono hi hk2 (by omega)
            · intro t ht h2
              rcases List.mem_append.mp ht with hmem | hmem
              · exact lt_trans (htc t hmem hi) (times_mono candles hmono hi h2 (by omega))
              · rw [List.mem_singleton.mp hmem]
                show (candles.getD k default).time < candles[k + 1].time
                rw [hgdk]
                exact times_mono candles hmono hk2 h2 (by omega)
            · intro s hs h2
              exact lt_trans (hsc s hs hi) (times_mono candles hmono hi h2 (by omega))
        · by_cases hd0 : candle_dir candles[i] = 0
          · by_cases hpd0 : p.streak_dir = 0
            · rw [hpd0] at heq
              exact absurd hd0 heq
            · rw [engine_loop_await_doji candles i p trades setups hi hd0 hpd0]
              exact ih (i + 1) _ trades setups (by omega) htp hte htc' hsp hsc'
          · rw [engine_loop_await_mismatch candles i p (candle_dir candles[i]) trades setups
              hi rfl hd0 heq]
            exact ih (i + 1) _ trades setups (by omega) htp hte htc' hsp hsc'

/-! ## Pullback extremes and target selection -/

theorem pb_min_low_le (l : List Candle) : ∀ c ∈ l, pb_min_low l ≤ c.low := by
  induction l with
  | nil => intro c hc; cases hc
  | cons a rest ih =>
    intro c hc
    cases rest with
    | nil =>
      have : c = a := by simpa using hc
      rw [this]
      simp [pb_min_low]
    | cons b r2 =>
      rcases List.mem_cons.mp hc with hca | hcr
      · rw [hca]
        simp only [pb_min_low]
        exact min_le_left _ _
      · calc pb_min_low (a :: b :: r2) ≤ pb_min_low (b :: r2) := min_le_right _ _
          _ ≤ c.low := ih c hcr

theorem pb_max_high_ge (l : List Candle) : ∀ c ∈ l, c.high ≤ pb_max_high l := by
  induction l with
  | nil => intro c hc; cases hc
  | cons a rest ih =>
    intro c hc
    cases rest with
    | nil =>
      have : c = a := by simpa using hc
      rw [this]
      simp [pb_max_high]
    | cons b r2 =>
      rcases List.mem_cons.mp hc with hca | hcr
      · rw [hca]
        simp only [pb_max_high]
        exact le_max_left _ _
      · calc c.high ≤ pb_max_high (b :: r2) := ih c hcr
          _ ≤ pb_max_high (a :: b :: r2) := le_max_right _ _

theorem pb_min_low_mem (l : List Candle) (h : l ≠ []) : ∃ c ∈ l, pb_min_low l = c.low := by
  induction l with
  | nil => exact absurd rfl h
  | cons a rest ih =>
    cases rest with
    | nil => exact ⟨a, by simp, by simp [pb_min_low]⟩
    | cons b r2 =>
      rcases ih (by simp) with ⟨c, hc, hcl⟩
      by_cases hle : a.low ≤ pb_min_low (b :: r2)
      · exact ⟨a, by simp, by simp [pb_min_low, min_eq_left hle]⟩
      · refine ⟨c, List.mem_cons_of_mem a hc, ?_⟩
        simp only [pb_min_low]
        rw [min_eq_right (le_of_lt (lt_of_not_le hle)), hcl]

theorem pb_max_high_mem (l : List Candle) (h : l ≠ []) : ∃ c ∈ l, pb_max_high l = c.high := by
  induction l with
  | nil => exact absurd rfl h
  | cons a rest ih =>
    cases rest with
    | nil => exact ⟨a, by simp, by simp [pb_max_high]⟩
    | cons b r2 =>
      rcases ih (by simp) with ⟨c, hc, hcl⟩
      by_cases hle : pb_max_high (b :: r2) ≤ a.high
      · exact ⟨a, by simp, by simp [pb_max_high, max_eq_left hle]⟩
      · refine ⟨c, List.mem_cons_of_mem a hc, ?_⟩
        simp only [pb_max_high]
        rw [max_eq_right (le_of_lt (lt_of_not_le hle)), hcl]

/-- The boolean `touched` test of `_compute_target` in propositional form. -/
theorem touched_iff (mid : ℚ) (pullback : List Candle) :
    (pullback.any fun pb => decide (pb.low ≤ mid) && decide (mid ≤ pb.high)) = true
      ↔ ∃ c ∈ pullback, c.low ≤ mid ∧ mid ≤ c.high := by
  simp [List.any_eq_true]

/-- `_breaking_condition` in propositional form. -/
theorem breaking_condition_iff (sd : Int) (c t : ℚ) :
    breaking_condition sd c t = true ↔ (if sd = 1 then c < t else t < c) := by
  unfold breaking_condition
  split <;> simp

/-! ## Top-level record and time facts -/

theorem generate_records (candles : List Candle) :
    (∀ t ∈ (generate_trades_and_setups candles).1, TradeRec candles t) ∧
    (∀ s ∈ (generate_trades_and_setups candles).2, SetupRec s) := by
  by_cases hc : candles = []
  · simp [generate_trades_and_setups, hc]
  · have h := engine_loop_records candles candles.length 0 .seekStreak [] []
      (by omega) trivial (by simp) (by simp)
    simpa [generate_trades_and_setups, hc] using h

theorem generate_times (candles : List Candle)
    (hmono : candles.Pairwise (fun a b => a.time < b.time)) :
    (generate_trades_and_setups candles).1.Pairwise
      (fun t1 t2 => t1.exit.time < t2.entry.time) ∧
    (∀ t ∈ (generate_trades_and_setups candles).1, t.entry.time < t.exit.time) ∧
    (generate_trades_and_setups candles).2.Pairwise (fun s1 s2 => s1.time < s2.time) := by
  by_cases hc : candles = []
  · simp [generate_trades_and_setups, hc]
  · have h := engine_loop_times candles hmono candles.length 0 .seekStreak [] []
      (by omega) (by simp) (by simp) (by simp) (by simp) (by simp)
    simpa [generate_trades_and_setups, hc] using h

/-! ## The claims -/

/-- C1: if the forward touch scan finds no candle containing the target after
a confirmed entry, the engine returns exactly the accumulators as they stood —
the trade is not recorded and nothing further is produced from the segment; in
particular a segment with a single confirmed entry whose target is never
touched yields an empty trade list. -/
theorem claim_C1 (candles : List Candle) (i : Nat) (p : PendingSetup)
    (trades : List Trade) (setups : List Setup) (h : i < candles.length)
    (hdir : candle_dir candles[i] = p.streak_dir)
    (hnone : find_first_target_touch candles (i + 1) p.target = none) :
    engine_loop candles i (.awaitConfirmation p) trades setups = (trades, setups) ∧
    generate_trades demoNoExit = [] ∧
    generate_trades_and_setups demoNoExit
      = ([], [{ time := 1500, direction := .BUY, streak_length := 4, pullback_length := 1,
                target := 1030 }]) := by
  refine ⟨engine_loop_await_no_touch candles i p trades setups h hdir hnone, ?_, demoNoExit_eval⟩
  rw [generate_trades, demoNoExit_eval]

theorem claim_C1_witness :
    (engine_loop demoNoExit 6
        (.awaitConfirmation { streak_dir := 1, streak_length := 4, pullback_start_idx := 4,
                              pullback_length := 1, target := 1030,
                              breaking_candle_time := 1500 })
        []
        [{ time := 1500, direction := .BUY, streak_length := 4, pullback_length := 1,
           target := 1030 }]
      = ([], [{ time := 1500, direction := .BUY, streak_length := 4, pullback_length := 1,
                target := 1030 }])) ∧
    generate_trades demoNoExit = [] ∧
    generate_trades_and_setups demoNoExit
      = ([], [{ time := 1500, direction := .BUY, streak_length := 4, pullback_length := 1,
                target := 1030 }]) :=
  claim_C1 demoNoExit 6
    { streak_dir := 1, streak_length := 4, pullback_start_idx := 4,
      pullback_length := 1, target := 1030, breaking_candle_time := 1500 }
    []
    [{ time := 1500, direction := .BUY, streak_length := 4, pullback_length := 1,
       target := 1030 }]
    (by decide)
    (by norm_num [candle_dir, demoNoExit, mkC])
    (by rw [find_first_target_touch]; norm_num [demoNoExit, mkC])

/-- C4: no Setup or Trade ever comes from a streak shorter than 4 — every
emitted record has `streak_length ≥ 4` — and an opposite-direction candle
ending a streak shorter than 4 starts a brand-new streak at that candle. -/
theorem claim_C4 (candles : List Candle) :
    (∀ t ∈ (generate_trades_and_setups candles).1, 4 ≤ t.streak_length) ∧
    (∀ s ∈ (generate_trades_and_setups candles).2, 4 ≤ s.streak_length) ∧
    (∀ (i : Nat) (sd : Int) (ssi sl : Nat) (trades : List Trade) (setups : List Setup),
      ∀ h : i < candles.length,
      candle_dir candles[i] = -sd → (sd = 1 ∨ sd = -1) → sl < 4 →
      engine_loop candles i (.inStreak sd ssi sl) trades setups
        = engine_loop candles (i + 1) (.inStreak (-sd) i 1) trades setups) := by
  refine ⟨fun t ht => ((generate_records candles).1 t ht).1,
    fun s hs => ((generate_records candles).2 s hs).1, ?_⟩
  intro i sd ssi sl trades setups h hdir hsd hsl
  exact engine_loop_instreak_short candles i sd (-sd) ssi sl trades setups h hdir
    (by omega) (by omega) hsl

theorem claim_C4_witness :
    4 ≤ Trade.streak_length { direction := .BUY, streak_length := 4, pullback_length := 1,
                              target := 1030, breaking_candle_time := 1500,
                              entry := { time := 1800, price := 1028 },
                              exit := { time := 2100, price := 1030 } } ∧
    4 ≤ Setup.streak_length { time := 1500, direction := .BUY, streak_length := 4,
                              pullback_length := 1, target := 1030 } :=
  ⟨(claim_C4 demoTouch).1 _ (by rw [demoTouch_eval]; simp),
   (claim_C4 demoTouch).2.1 _ (by rw [demoTouch_eval]; simp)⟩

/-- C5: every emitted Setup and Trade has pullback_length 1 or 2, and a third
consecutive opposite candle during a pullback re-seeds a new streak at the
pullback's first candle with streak length pullback_length + 1 = 3. -/
theorem claim_C5 (candles : List Candle) :
    (∀ t ∈ (generate_trades_and_setups candles).1,
      t.pullback_length = 1 ∨ t.pullback_length = 2) ∧
    (∀ s ∈ (generate_trades_and_setups candles).2,
      s.pullback_length = 1 ∨ s.pullback_length = 2) ∧
    (∀ (i : Nat) (sd : Int) (lsc ssl pbs : Nat) (trades : List Trade) (setups : List Setup),
      ∀ h : i < candles.length,
      candle_dir candles[i] = -sd → (sd = 1 ∨ sd = -1) →
      engine_loop candles i (.inPullback sd lsc ssl pbs 2) trades setups
        = engine_loop candles (i + 1) (.inStreak (-sd) pbs 3) trades setups) := by
  refine ⟨fun t ht => ((generate_records candles).1 t ht).2.1,
    fun s hs => ((generate_records candles).2 s hs).2, ?_⟩
  intro i sd lsc ssl pbs trades setups h hdir hsd
  exact engine_loop_pullback_third candles i sd lsc ssl pbs 2 trades setups h hdir
    (by omega) (by omega)

theorem claim_C5_witness :
    (Trade.pullback_length { direction := .BUY, streak_length := 4, pullback_length := 1,
                             target := 1030, breaking_candle_time := 1500,
                             entry := { time := 1800, price := 1028 },
                             exit := { time := 2100, price := 1030 } } = 1 ∨
     Trade.pullback_length { direction := .BUY, streak_length := 4, pullback_length := 1,
                             target := 1030, breaking_candle_time := 1500,
                             entry := { time := 1800, price := 1028 },
                             exit := { time := 2100, price := 1030 } } = 2) ∧
    (Setup.pullback_length { time := 1500, direction := .BUY, streak_length := 4,
                             pullback_length := 1, target := 1030 } = 1 ∨
     Setup.pullback_length { time := 1500, direction := .BUY, streak_length := 4,
                             pullback_length := 1, target := 1030 } = 2) :=
  ⟨(claim_C5 demoTouch).1 _ (by rw [demoTouch_eval]; simp),
   (claim_C5 demoTouch).2.1 _ (by rw [demoTouch_eval]; simp)⟩

/-- C7: every returned trade enters at the confirmation candle's close, exits
exactly at the target, and its exit time is the first candle strictly after
the confirmation whose range contains the target; the confirmation candle
matches the trade direction and the touch candle exists in the segment. -/
theorem claim_C7 (candles : List Candle) :
    ∀ t ∈ (generate_trades_and_setups candles).1, TradeSpec candles t :=
  fun t ht => ((generate_records candles).1 t ht).2.2

theorem claim_C7_witness :
    TradeSpec demoTouch
      { direction := .BUY, streak_length := 4, pullback_length := 1, target := 1030,
        breaking_candle_time := 1500,
        entry := { time := 1800, price := 1028 },
        exit := { time := 2100, price := 1030 } } :=
  claim_C7 demoTouch _ (by rw [demoTouch_eval]; simp)

/-- C3: target selection — Case A (some pullback candle's range contains the
LSC midpoint) yields the LSC's low (bullish) or high (bearish); Case B yields
the pullback's own extreme; in both cases the target lies in the convex hull
of the LSC and pullback price ranges. -/
theorem claim_C3 (sd : Int) (lsc_high lsc_low : ℚ) (pullback : List Candle)
    (hsd : sd = 1 ∨ sd = -1) (hne : pullback ≠ [])
    (hlsc : lsc_low ≤ lsc_high) (hpb : ∀ c ∈ pullback, c.low ≤ c.high) :
    ((∃ c ∈ pullback, c.low ≤ (lsc_high + lsc_low) / 2 ∧ (lsc_high + lsc_low) / 2 ≤ c.high) →
      compute_target sd lsc_high lsc_low pullback = if sd = 1 then lsc_low else lsc_high) ∧
    ((¬ ∃ c ∈ pullback, c.low ≤ (lsc_high + lsc_low) / 2 ∧ (lsc_high + lsc_low) / 2 ≤ c.high) →
      compute_target sd lsc_high lsc_low pullback
        = if sd = 1 then pb_min_low pullback else pb_max_high pullback) ∧
    min lsc_low (pb_min_low pullback) ≤ compute_target sd lsc_high lsc_low pullback ∧
    compute_target sd lsc_high lsc_low pullback ≤ max lsc_high (pb_max_high pullback) := by
  have hunf : compute_target sd lsc_high lsc_low pullback
      = if (pullback.any fun pb => decide (pb.low ≤ (lsc_high + lsc_low) / 2)
            && decide ((lsc_high + lsc_low) / 2 ≤ pb.high)) then
          (if sd = 1 then lsc_low else lsc_high)
        else (if sd = 1 then pb_min_low pullback else pb_max_high pullback) := rfl
  cases hany : (pullback.any fun pb => decide (pb.low ≤ (lsc_high + lsc_low) / 2)
      && decide ((lsc_high + lsc_low) / 2 ≤ pb.high)) with
  | true =>
    have htch := (touched_iff ((lsc_high + lsc_low) / 2) pullback).mp hany
    have heq : compute_target sd lsc_high lsc_low pullback
        = if sd = 1 then lsc_low else lsc_high := by
      rw [hunf, hany]
      simp
    refine ⟨fun _ => heq, fun hno => absurd htch hno, ?_, ?_⟩
    · rw [heq]
      rcases hsd with h | h
      · rw [h, if_pos rfl]
        exact min_le_left _ _
      · rw [h, if_neg (by decide)]
        exact le_trans (min_le_left _ _) hlsc
    · rw [heq]
      rcases hsd with h | h
      · rw [h, if_pos rfl]
        exact le_trans hlsc (le_max_left _ _)
      · rw [h, if_neg (by decide)]
        exact le_max_left _ _
  | false =>
    have hno : ¬ ∃ c ∈ pullback, c.low ≤ (lsc_high + lsc_low) / 2 ∧
        (lsc_high + lsc_low) / 2 ≤ c.high := by
      intro hex
      rw [(touched_iff ((lsc_high + lsc_low) / 2) pullback).mpr hex] at hany
      cases hany
    have heq : compute_target sd lsc_high lsc_low pullback
        = if sd = 1 then pb_min_low pullback else pb_max_high pullback := by
      rw [hunf, hany]
      simp
    refine ⟨fun hex => absurd hex hno, fun _ => heq, ?_, ?_⟩
    · rw [heq]
      rcases hsd with h | h
      · rw [h, if_pos rfl]
        exact min_le_right _ _
      · rw [h, if_neg (by decide)]
        obtain ⟨c, hc, hcl⟩ := pb_max_high_mem pullback hne
        rw [hcl]
        exact le_trans (min_le_right _ _) (le_trans (pb_min_low_le pullback c hc) (hpb c hc))
    · rw [heq]
      rcases hsd with h | h
      · rw [h, if_pos rfl]
        obtain ⟨c, hc, hcl⟩ := pb_min_low_mem pullback hne
        rw [hcl]
        exact le_trans (hpb c hc) (le_trans (pb_max_high_ge pullback c hc) (le_max_right _ _))
      · rw [h, if_neg (by decide)]
        exact le_max_right _ _

theorem claim_C3_witness :
    ((∃ c ∈ [mkC 1200 1038 1038 1034 1034],
        c.low ≤ ((1040 : ℚ) + 1030) / 2 ∧ ((1040 : ℚ) + 1030) / 2 ≤ c.high) →
      compute_target 1 1040 1030 [mkC 1200 1038 1038 1034 1034]
        = if (1 : Int) = 1 then (1030 : ℚ) else 1040) ∧
    ((¬ ∃ c ∈ [mkC 1200 1038 1038 1034 1034],
        c.low ≤ ((1040 : ℚ) + 1030) / 2 ∧ ((1040 : ℚ) + 1030) / 2 ≤ c.high) →
      compute_target 1 1040 1030 [mkC 1200 1038 1038 1034 1034]
        = if (1 : Int) = 1 then pb_min_low [mkC 1200 1038 1038 1034 1034]
          else pb_max_high [mkC 1200 1038 1038 1034 1034]) ∧
    min (1030 : ℚ) (pb_min_low [mkC 1200 1038 1038 1034 1034])
      ≤ compute_target 1 1040 1030 [mkC 1200 1038 1038 1034 1034] ∧
    compute_target 1 1040 1030 [mkC 1200 1038 1038 1034 1034]
      ≤ max (1040 : ℚ) (pb_max_high [mkC 1200 1038 1038 1034 1034]) :=
  claim_C3 1 1040 1030 [mkC 1200 1038 1038 1034 1034] (Or.inl rfl) (by simp)
    (by norm_num)
    (by intro c hc; rw [List.mem_singleton.mp hc]; norm_num [mkC])

/-- C6: on the breaking candle of a valid pullback a Setup is always appended
(whatever happens later); the engine moves to AWAIT_CONFIRMATION exactly when
the breaking candle's close is strictly below the target (bullish) or
strictly above it (bearish), and otherwise starts a fresh streak of length 1
at the breaking candle. -/
theorem claim_C6 (candles : List Candle) (i : Nat) (sd : Int) (lsc ssl pbs pbl : Nat)
    (trades : List Trade) (setups : List Setup) (h : i < candles.length)
    (hsd : sd = 1 ∨ sd = -1)
    (hdir : candle_dir candles[i] = sd)
    (hvalid : pullback_invalid sd (candles.getD lsc default).open_
      ((candles.drop pbs).take pbl) = false) :
    engine_loop candles i (.inPullback sd lsc ssl pbs pbl) trades setups
      = engine_loop candles (i + 1)
          (if (if sd = 1
               then candles[i].close < compute_target sd (candles.getD lsc default).high
                 (candles.getD lsc default).low ((candles.drop pbs).take pbl)
               else compute_target sd (candles.getD lsc default).high
                 (candles.getD lsc default).low ((candles.drop pbs).take pbl)
                   < candles[i].close)
           then .awaitConfirmation
                  { streak_dir := sd, streak_length := ssl, pullback_start_idx := pbs,
                    pullback_length := pbl,
                    target := compute_target sd (candles.getD lsc default).high
                      (candles.getD lsc default).low ((candles.drop pbs).take pbl),
                    breaking_candle_time := candles[i].time }
           else .inStreak sd i 1)
          trades
          (setups ++ [{ time := candles[i].time,
                        direction := if sd = 1 then .BUY else .SELL,
                        streak_length := ssl, pullback_length := pbl,
                        target := compute_target sd (candles.getD lsc default).high
                          (candles.getD lsc default).low
                          ((candles.drop pbs).take pbl) }]) := by
  have hsd0 : sd ≠ 0 := by omega
  cases hbr : breaking_condition sd candles[i].close
      (compute_target sd (candles.getD lsc default).high (candles.getD lsc default).low
        ((candles.drop pbs).take pbl)) with
  | false =>
    rw [engine_loop_pullback_break_fail candles i sd lsc ssl pbs pbl trades setups h hdir
      hsd0 hvalid hbr]
    have hprop : ¬ (if sd = 1
        then candles[i].close < compute_target sd (candles.getD lsc default).high
          (candles.getD lsc default).low ((candles.drop pbs).take pbl)
        else compute_target sd (candles.getD lsc default).high
          (candles.getD lsc default).low ((candles.drop pbs).take pbl)
            < candles[i].close) := by
      intro hp
      rw [(breaking_condition_iff sd _ _).mpr hp] at hbr
      cases hbr
    rw [if_neg hprop]
  | true =>
    rw [engine_loop_pullback_break_ok candles i sd lsc ssl pbs pbl trades setups h hdir
      hsd0 hvalid hbr]
    rw [if_pos ((breaking_condition_iff sd _ _).mp hbr)]

theorem claim_C6_witness :
    engine_loop demoNoExit 5 (.inPullback 1 3 4 4 1) [] []
      = engine_loop demoNoExit 6
          (if (if (1 : Int) = 1
               then demoNoExit[5].close < compute_target 1 (demoNoExit.getD 3 default).high
                 (demoNoExit.getD 3 default).low ((demoNoExit.drop 4).take 1)
               else compute_target 1 (demoNoExit.getD 3 default).high
                 (demoNoExit.getD 3 default).low ((demoNoExit.drop 4).take 1)
                   < demoNoExit[5].close)
           then .awaitConfirmation
                  { streak_dir := 1, streak_length := 4, pullback_start_idx := 4,
                    pullback_length := 1,
                    target := compute_target 1 (demoNoExit.getD 3 default).high
                      (demoNoExit.getD 3 default).low ((demoNoExit.drop 4).take 1),
                    breaking_candle_time := demoNoExit[5].time }
           else .inStreak 1 5 1)
          []
          ([] ++ [{ time := demoNoExit[5].time,
                    direction := if (1 : Int) = 1 then .BUY else .SELL,
                    streak_length := 4, pullback_length := 1,
                    target := compute_target 1 (demoNoExit.getD 3 default).high
                      (demoNoExit.getD 3 default).low
                      ((demoNoExit.drop 4).take 1) }]) :=
  claim_C6 demoNoExit 5 1 3 4 4 1 [] [] (by decide) (Or.inl rfl)
    (by norm_num [candle_dir, demoNoExit, mkC])
    (by norm_num [pullback_invalid, pb_min_low, demoNoExit, mkC])

/-- C10: a pullback whose extreme exactly equals the LSC's open is NOT
invalidated — invalidation requires a strict breach of the LSC open — and a
boundary-touching pullback still has its Setup emitted by the engine. -/
theorem claim_C10 (sd : Int) (o : ℚ) (pb : List Candle)
    (hsd : sd = 1 ∨ sd = -1) (hne : pb ≠ []) :
    (pullback_invalid sd o pb = true
      ↔ (if sd = 1 then pb_min_low pb < o else o < pb_max_high pb)) ∧
    ((if sd = 1 then pb_min_low pb = o else pb_max_high pb = o) →
      pullback_invalid sd o pb = false) ∧
    (∀ (candles : List Candle) (i lsc ssl pbs pbl : Nat)
        (trades : List Trade) (setups : List Setup), ∀ h : i < candles.length,
      candle_dir candles[i] = sd →
      (candles.drop pbs).take pbl = pb →
      (candles.getD lsc default).open_ = o →
      (if sd = 1 then pb_min_low pb = o else pb_max_high pb = o) →
      ∃ st' : EngState,
        engine_loop candles i (.inPullback sd lsc ssl pbs pbl) trades setups
          = engine_loop candles (i + 1) st' trades
              (setups ++ [{ time := candles[i].time,
                            direction := if sd = 1 then .BUY else .SELL,
                            streak_length := ssl, pullback_length := pbl,
                            target := compute_target sd (candles.getD lsc default).high
                              (candles.getD lsc default).low pb }])) := by
  have hiff : pullback_invalid sd o pb = true
      ↔ (if sd = 1 then pb_min_low pb < o else o < pb_max_high pb) := by
    rcases hsd with h | h <;> subst h <;> simp [pullback_invalid]
  have hbd : (if sd = 1 then pb_min_low pb = o else pb_max_high pb = o) →
      pullback_invalid sd o pb = false := by
    intro hb
    rcases hsd with h | h <;> subst h <;> simp at hb <;> simp [pullback_invalid, hb]
  refine ⟨hiff, hbd, ?_⟩
  intro candles i lsc ssl pbs pbl trades setups h hdir hslice hopen hb
  have hsd0 : sd ≠ 0 := by omega
  have hinv : pullback_invalid sd (candles.getD lsc default).open_
      ((candles.drop pbs).take pbl) = false := by
    rw [hslice, hopen]
    exact hbd hb
  cases hbr : breaking_condition sd candles[i].close
      (compute_target sd (candles.getD lsc default).high (candles.getD lsc default).low
        ((candles.drop pbs).take pbl)) with
  | false =>
    refine ⟨.inStreak sd i 1, ?_⟩
    rw [engine_loop_pullback_break_fail candles i sd lsc ssl pbs pbl trades setups h hdir
      hsd0 hinv hbr, hslice]
  | true =>
    refine ⟨.awaitConfirmation
      { streak_dir := sd, streak_length := ssl, pullback_start_idx := pbs,
        pullback_length := pbl,
        target := compute_target sd (candles.getD lsc default).high
          (candles.getD lsc default).low pb,
        breaking_candle_time := candles[i].time }, ?_⟩
    rw [engine_loop_pullback_break_ok candles i sd lsc ssl pbs pbl trades setups h hdir
      hsd0 hinv hbr, hslice]

theorem claim_C10_witness :
    (pullback_invalid 1 1030 [mkC 1200 1038 1038 1030 1034] = true
      ↔ (if (1 : Int) = 1 then pb_min_low [mkC 1200 1038 1038 1030 1034] < (1030 : ℚ)
         else (1030 : ℚ) < pb_max_high [mkC 1200 1038 1038 1030 1034])) ∧
    ((if (1 : Int) = 1 then pb_min_low [mkC 1200 1038 1038 1030 1034] = (1030 : ℚ)
      else pb_max_high [mkC 1200 1038 1038 1030 1034] = (1030 : ℚ)) →
      pullback_invalid 1 1030 [mkC 1200 1038 1038 1030 1034] = false) :=
  ⟨(claim_C10 1 1030 [mkC 1200 1038 1038 1030 1034] (Or.inl rfl) (by simp)).1,
   (claim_C10 1 1030 [mkC 1200 1038 1038 1030 1034] (Or.inl rfl) (by simp)).2.1⟩

/-- C8: the gap segmenter closes a run exactly when the timestamp difference
is strictly greater than the expected step (equality never splits): empty
input gives no segments, every returned segment is nonempty, consecutive
candles inside one segment differ by at most the step, and adjacent segments
are separated by a strictly larger difference. -/
theorem claim_C8 (candles : List Candle) (step : Int) :
    split_candles_on_gaps [] step = [] ∧
    (∀ s ∈ split_candles_on_gaps candles step, s ≠ []) ∧
    (∀ s ∈ split_candles_on_gaps candles step, within_step step s) ∧
    (split_candles_on_gaps candles step).Chain' (gap_between step) := by
  refine ⟨by simp [split_candles_on_gaps], ?_, ?_, ?_⟩
  · by_cases hc : candles = []
    · simp [split_candles_on_gaps, hc]
    · intro s hs
      rw [split_candles_on_gaps, if_neg hc] at hs
      exact split_loop_ne_nil candles step candles.length 1 0 [] (by omega) (by simp) s hs
  · by_cases hc : candles = []
    · simp [split_candles_on_gaps, hc]
    · intro s hs
      rw [split_candles_on_gaps, if_neg hc] at hs
      refine split_loop_within candles step candles.length 1 0 [] (by omega) (by omega)
        (by simp) ?_ s hs
      simp only [within_step, Nat.sub_zero, List.drop_zero]
      exact take_one_chain _
  · by_cases hc : candles = []
    · simp [split_candles_on_gaps, hc]
    · rw [split_candles_on_gaps, if_neg hc]
      refine split_loop_across candles step candles.length 1 0 [] (by omega) (by omega)
        (by simp) ?_
      intro s hs
      simp at hs

theorem claim_C8_witness :
    split_candles_on_gaps [] 300 = [] ∧
    ([mkC 0 1000 1010 1000 1010, mkC 300 1010 1020 1010 1020] : List Candle) ≠ [] ∧
    within_step 300 [mkC 0 1000 1010 1000 1010, mkC 300 1010 1020 1010 1020] ∧
    (split_candles_on_gaps gapDemo 300).Chain' (gap_between 300) :=
  ⟨(claim_C8 gapDemo 300).1,
   (claim_C8 gapDemo 300).2.1 _ (by rw [gapDemo_eval]; simp),
   (claim_C8 gapDemo 300).2.2.1 _ (by rw [gapDemo_eval]; simp),
   (claim_C8 gapDemo 300).2.2.2⟩

/-- C9: the returned segments are an ordered partition of the input — their
concatenation is exactly the original candle list. -/
theorem claim_C9 (candles : List Candle) (step : Int) :
    (split_candles_on_gaps candles step).flatten = candles :=
  split_join candles step

/-- C2: trades are in non-decreasing entry-time order and setups in
non-decreasing time order; no two trades overlap — each later trade's entry
time is strictly greater than the earlier trade's exit time — and the same
holds for the gap-aware wrapper. -/
theorem claim_C2 (candles : List Candle)
    (hmono : candles.Pairwise (fun a b => a.time < b.time)) :
    (generate_trades_and_setups candles).1.Pairwise
      (fun t1 t2 => t1.entry.time ≤ t2.entry.time) ∧
    (generate_trades_and_setups candles).2.Pairwise (fun s1 s2 => s1.time ≤ s2.time) ∧
    (generate_trades_and_setups candles).1.Pairwise
      (fun t1 t2 => t1.exit.time < t2.entry.time) ∧
    (∀ t ∈ (generate_trades_and_setups candles).1, t.entry.time < t.exit.time) ∧
    (generate_trades_with_gap_resets candles 300).Pairwise
      (fun t1 t2 => t1.exit.time < t2.entry.time) ∧
    (generate_trades_with_gap_resets candles 300).Pairwise
      (fun t1 t2 => t1.entry.time ≤ t2.entry.time) := by
  obtain ⟨h1, h2, h3⟩ := generate_times candles hmono
  have hsegmono : ∀ seg ∈ split_candles_on_gaps candles 300,
      seg.Pairwise (fun a b => a.time < b.time) := by
    have hm := hmono
    rw [← split_join candles 300] at hm
    exact (List.pairwise_flatten.mp hm).1
  have hsegcross : (split_candles_on_gaps candles 300).Pairwise
      (fun s1 s2 => ∀ x ∈ s1, ∀ y ∈ s2, x.time < y.time) := by
    have hm := hmono
    rw [← split_join candles 300] at hm
    exact (List.pairwise_flatten.mp hm).2
  have htimes_in : ∀ (seg : List Candle), ∀ t ∈ generate_trades seg,
      (∃ a ∈ seg, t.entry.time = a.time) ∧ (∃ b ∈ seg, t.exit.time = b.time) := by
    intro seg t ht
    obtain ⟨i, k, hik, hk, hdir, het, hep, hxp, hxt, htch, hmn⟩ :=
      ((generate_records seg).1 t ht).2.2
    have hi : i < seg.length := lt_trans hik hk
    have hgdi : seg.getD i default = seg[i] := by
      simp [List.getD_eq_getElem?_getD, List.getElem?_eq_getElem hi]
    have hgdk : seg.getD k default = seg[k] := by
      simp [List.getD_eq_getElem?_getD, List.getElem?_eq_getElem hk]
    refine ⟨⟨seg[i], List.getElem_mem hi, ?_⟩, ⟨seg[k], List.getElem_mem hk, ?_⟩⟩
    · rw [het, hgdi]
    · rw [hxt, hgdk]
  have hwrap : (generate_trades_with_gap_resets candles 300).Pairwise
      (fun t1 t2 => t1.exit.time < t2.entry.time) := by
    rw [generate_trades_with_gap_resets, List.pairwise_flatten]
    constructor
    · intro l hl
      rw [List.mem_map] at hl
      obtain ⟨seg, hseg, rfl⟩ := hl
      exact (generate_times seg (hsegmono seg hseg)).1
    · rw [List.pairwise_map]
      exact hsegcross.imp_of_mem (fun {s1 s2} hs1 hs2 hcr t1 ht1 t2 ht2 => by
        obtain ⟨-, b, hb, hbt⟩ := htimes_in s1 t1 ht1
        obtain ⟨⟨a, ha, hat⟩, -⟩ := htimes_in s2 t2 ht2
        rw [hbt, hat]
        exact hcr b hb a ha)
  have hwrap_ee : ∀ t ∈ generate_trades_with_gap_resets candles 300,
      t.entry.time < t.exit.time := by
    intro t ht
    rw [generate_trades_with_gap_resets, List.mem_flatten] at ht
    obtain ⟨l, hl, htl⟩ := ht
    rw [List.mem_map] at hl
    obtain ⟨seg, hseg, rfl⟩ := hl
    exact (generate_times seg (hsegmono seg hseg)).2.1 t htl
  refine ⟨?_, ?_, h1, h2, hwrap, ?_⟩
  · exact h1.imp_of_mem (fun ht1 ht2 hr => le_of_lt (lt_trans (h2 _ ht1) hr))
  · exact h3.imp_of_mem (fun _ _ hr => le_of_lt hr)
  · exact hwrap.imp_of_mem (fun ht1 ht2 hr => le_of_lt (lt_trans (hwrap_ee _ ht1) hr))

theorem claim_C2_witness :
    demoTouch.Pairwise (fun a b => a.time < b.time) ∧
    (generate_trades_and_setups demoTouch).1.Pairwise
      (fun t1 t2 => t1.exit.time < t2.entry.time) ∧
    (generate_trades_with_gap_resets demoTouch 300).Pairwise
      (fun t1 t2 => t1.entry.time ≤ t2.entry.time) := by
  have hm : demoTouch.Pairwise (fun a b => a.time < b.time) := by
    norm_num [demoTouch, demoNoExit, mkC, List.pairwise_cons]
  exact ⟨hm, (claim_C2 demoTouch hm).2.2.1, (claim_C2 demoTouch hm).2.2.2.2.2⟩
